import Mathlib

/-!
Verification development for the AdvanceSyn ToolKit model compiler
(`ASModeller`): a shallow embedding, in Lean 4, of the specification
parser, entity/reaction graph builder, index assignment, rate-law
substitution, ODE setup emission, network projection, and the
multi-specification merge, together with theorems settling the
behavioural claims about these components.

Python strings are modelled as `List Char` (`PyStr`); Python `dict`s as
insertion-ordered association lists with the usual Python semantics
(overwrite-in-place keeps position, fresh keys append at the end).
Python exceptions (`KeyError`, `IndexError`, `NameError`, parse errors)
are modelled with `Except PyErr`.  All recursion is structural (fuel is
used where the Python code consumes several characters per step) so
every definition evaluates by `decide` / `rfl` on concrete inputs.
-/

/-- Python strings, modelled as their character lists. -/
abbrev PyStr := List Char

/-- Shorthand: the character list of a Lean string literal. -/
def S (s : String) : PyStr := s.data

/-- Python exception kinds raised by the modelled code paths. -/
inductive PyErr where
  | keyError : PyErr
  | indexError : PyErr
  | nameError : PyErr
  | missingSectionHeader : PyErr
  | parsingError : PyErr
deriving DecidableEq, Repr

/-! ### Python `str` primitives -/

/-- The whitespace characters stripped by Python's `str.strip()`. -/
def isPySpace (c : Char) : Bool :=
  c = ' ' || c = '\t' || c = '\n' || c = '\x0d' || c = '\x0b' || c = '\x0c'

/-- Python `str.lstrip()` (default whitespace). -/
def pyLStrip (s : PyStr) : PyStr := s.dropWhile isPySpace

/-- Python `str.rstrip()` (default whitespace). -/
def pyRStrip (s : PyStr) : PyStr := (s.reverse.dropWhile isPySpace).reverse

/-- Python `str.strip()` (default whitespace). -/
def pyStrip (s : PyStr) : PyStr := pyRStrip (pyLStrip s)

/-- Fuel-driven worker for `pySplit`.  One unit of fuel is spent per
character consumed, so `fuel = s.length` always suffices; the fuel-out
branch is unreachable under that bound. -/
def pySplitFuel (sep : PyStr) : Nat → PyStr → PyStr → List PyStr
  | 0, acc, _ => [acc.reverse]
  | fuel + 1, acc, s =>
    if sep ≠ [] ∧ sep.isPrefixOf s then
      acc.reverse :: pySplitFuel sep fuel [] (s.drop sep.length)
    else
      match s with
      | [] => [acc.reverse]
      | c :: rest => pySplitFuel sep fuel (c :: acc) rest

/-- Python `str.split(sep)` for a non-empty separator string: scans left
to right, cutting at each non-overlapping occurrence of `sep`, keeping
empty pieces (Python raises on an empty separator; the code under study
never passes one). -/
def pySplit (sep s : PyStr) : List PyStr := pySplitFuel sep s.length [] s

/-- Python `l[a:b]` for `0 ≤ a ≤ b` (the only shapes used by the code). -/
def sliceList {α : Type} (l : List α) (a b : Nat) : List α :=
  (l.drop a).take (b - a)

/-- The decimal digit character for `d < 10`, as in Python's `str(int)`. -/
def digitChar (d : Nat) : Char := Char.ofNat (48 + d)

/-- Fuel-driven decimal rendering of a positive `Nat`; `fuel ≥ n` always
suffices since the quotient shrinks strictly each step. -/
def decDigits : Nat → Nat → List Char
  | 0, _ => []
  | _ + 1, 0 => []
  | fuel + 1, n + 1 => decDigits fuel ((n + 1) / 10) ++ [digitChar ((n + 1) % 10)]

/-- Python `str(n)` for a non-negative integer `n`. -/
def natToStr (n : Nat) : PyStr := if n = 0 then [digitChar 0] else decDigits n n

/-- Decimal valuation of a digit string; left inverse of `natToStr`,
used to prove injectivity of the rendered reaction counters. -/
def decValue (s : List Char) : Nat := s.foldl (fun a c => a * 10 + (c.toNat - 48)) 0

/-! ### Python `dict` (insertion-ordered association lists) -/

/-- Python `d[k]` as an `Option`: first (and, for a well-formed dict,
only) binding of `k`. -/
def dictGet {α : Type} : List (PyStr × α) → PyStr → Option α
  | [], _ => none
  | p :: rest, k => if p.1 = k then some p.2 else dictGet rest k

/-- Python `k in d`. -/
def dictHas {α : Type} (d : List (PyStr × α)) (k : PyStr) : Bool :=
  (dictGet d k).isSome

/-- Python `d[k] = v`: overwrite in place (keeping the key's position)
when present, append at the end when fresh. -/
def dictSet {α : Type} (d : List (PyStr × α)) (k : PyStr) (v : α) : List (PyStr × α) :=
  if dictHas d k then d.map (fun p => if p.1 = k then (k, v) else p)
  else d ++ [(k, v)]

/-- Python `del d[k]` (for a well-formed dict there is at most one
binding, so removing every binding of `k` agrees with Python). -/
def dictDel {α : Type} : List (PyStr × α) → PyStr → List (PyStr × α)
  | [], _ => []
  | p :: rest, k => if p.1 = k then dictDel rest k else p :: dictDel rest k

/-- Python `list(d.keys())` (= iteration order). -/
def dictKeys {α : Type} (d : List (PyStr × α)) : List PyStr := d.map Prod.fst

/-- Python `d[k]`, raising `KeyError` when the key is absent. -/
def keyGet {α : Type} (d : List (PyStr × α)) (k : PyStr) : Except PyErr α :=
  match dictGet d k with
  | some v => Except.ok v
  | none => Except.error PyErr.keyError

/-- Python `l[i]`, raising `IndexError` when out of range. -/
def heapGet {α : Type} (h : List α) (i : Nat) : Except PyErr α :=
  match h.get? i with
  | some v => Except.ok v
  | none => Except.error PyErr.indexError

/-- Python `[l[i] for i in refs]`, raising `IndexError` on the first
out-of-range reference. -/
def heapGets {α : Type} (h : List α) : List Nat → Except PyErr (List α)
  | [] => Except.ok []
  | i :: rest => do
    let v ← heapGet h i
    let vs ← heapGets h rest
    pure (v :: vs)

/-! ### `re.sub(r'\b<name>\b', repl, s)` for identifier-shaped names

`generator_ode.substitute_rateEq` rewrites rate equations with
`re.sub(r'\b%s\b' % name, 'y[slot]', expr)`.  For a pattern made of word
characters (letters, digits, underscore), `\b<name>\b` matches an
occurrence of `name` whose neighbouring characters (if any) are
non-word characters.  `re.sub` scans left to right, replaces each
non-overlapping match and resumes immediately after the matched region
of the original string.  The definitions below model exactly that
word-character case: a name holding a regex metacharacter is
interpreted by `re` as a pattern (`A.B` matches `AxB`), and `\b` at a
non-word edge character instead demands a word-character neighbour, so
non-identifier names match differently from a literal scan — the
claims' theorems therefore restrict entity names to non-empty
all-word-character strings (concrete uses: `A`, `B`, `y`). -/

/-- Python's `\w` over the ASCII identifiers used as entity names. -/
def isWordChar (c : Char) : Bool := c.isAlphanum || c = '_'

/-- Does `\b<p>\b` (for `p` made of word characters) match at the start
of `s`, given the character immediately before `s` (none at the string
start)? -/
def wsubMatchAt (p : PyStr) (prev : Option Char) (s : PyStr) : Bool :=
  p.isPrefixOf s
    && (match prev with
        | none => true
        | some c => !isWordChar c)
    && (match s.drop p.length with
        | [] => true
        | c :: _ => !isWordChar c)

/-- Fuel-driven worker for `wordSub`; fuel `= s.length` suffices since
at least one character is consumed per step. -/
def wsubFuel (p rep : PyStr) : Nat → Option Char → PyStr → PyStr
  | 0, _, s => s
  | _ + 1, _, [] => []
  | fuel + 1, prev, c :: rest =>
    if p ≠ [] ∧ wsubMatchAt p prev (c :: rest) then
      rep ++ wsubFuel p rep fuel (some (p.getLastD c)) ((c :: rest).drop p.length)
    else
      c :: wsubFuel p rep fuel (some c) rest

/-- `re.sub(r'\b%s\b' % p, rep, s)` for a word-character pattern `p`. -/
def wordSub (p rep s : PyStr) : PyStr := wsubFuel p rep s.length none s

/-- Scan of the same positions `wordSub` inspects: is there any
word-boundary occurrence of `p` in `s` (given the preceding
character)?  Used to characterise when a substitution is a no-op. -/
def wordOccurs (p : PyStr) : Option Char → PyStr → Bool
  | _, [] => false
  | prev, c :: rest =>
    (decide (p ≠ []) && wsubMatchAt p prev (c :: rest)) || wordOccurs p (some c) rest

/-! ### `ASModeller/model_object.py` -/

/-- `ModelObject`: one entity / node of the model.  The Python object
keeps a `value` dict; only the `'initial'` slot is ever used, stored
here as `value_initial` (a string, exactly the text that later flows
into the generated script via `str(...)`). -/
structure ModelObject where
  name : PyStr
  description : PyStr
  value_initial : PyStr
  influx : List (PyStr × PyStr)
  outflux : List (PyStr × PyStr)
deriving DecidableEq, Repr

/-- The table of model objects: Python dict entity-name → `ModelObject`. -/
abbrev ObjTable := List (PyStr × ModelObject)

/-! ### `ASModeller/model_access.py` -/

/-- An AdvanceSyn model specification after `ConfigParser` reading: the
five stanzas used by the pipeline, each a dict key → value.  (The
`Specification` stanza only carries the type tag `'1'` and is implicit
here.) -/
structure Spec where
  Identifiers : List (PyStr × PyStr)
  Objects : List (PyStr × PyStr)
  Initials : List (PyStr × PyStr)
  Variables : List (PyStr × PyStr)
  Reactions : List (PyStr × PyStr)
deriving DecidableEq, Repr

/-- `model_access.generate_object_list_1`: one `ModelObject` per
`Objects` entry, keyed by name, in stanza order. -/
def generate_object_list_1 (spec : Spec) : ObjTable :=
  spec.Objects.foldl
    (fun objectlist p =>
      dictSet objectlist p.1
        { name := p.1, description := p.2, value_initial := []
          influx := [], outflux := [] })
    []

/-- `model_access.load_initials_1`: copy `Initials[name]` into each
object's initial value, defaulting to `0` when absent. -/
def load_initials_1 (spec : Spec) (objlist : ObjTable) : ObjTable :=
  objlist.map (fun p =>
    match dictGet spec.Initials p.1 with
    | some v => (p.1, { p.2 with value_initial := v })
    | none => (p.1, { p.2 with value_initial := S "0" }))

/-- A parsed reaction: ordered source / destination entity names and
the opaque rate-equation text. -/
structure Reaction where
  sources : List PyStr
  destinations : List PyStr
  rateEq : PyStr
deriving DecidableEq, Repr

/-- The body of `model_access.process_reactions_1`'s loop: split the
reaction text on `'|'` into movement and rate equation, the movement on
`'->'` into the two sides, each side on `'+'` into stripped entity-name
tokens.  `rdata[1]` / `movement[1]` raise `IndexError` when the
delimiter is missing. -/
def parse_reaction_1 (rdata : PyStr) : Except PyErr Reaction :=
  let rdataL := pySplit (S "|") rdata
  match rdataL.get? 1 with
  | none => Except.error PyErr.indexError
  | some rate1 =>
    let movement := pyStrip (rdataL.headD [])
    let rateEq := pyStrip rate1
    let movementL := pySplit (S "->") movement
    match movementL.get? 1 with
    | none => Except.error PyErr.indexError
    | some dest1 =>
      let sources := (pySplit (S "+") (pyStrip (movementL.headD []))).map pyStrip
      let destinations := (pySplit (S "+") (pyStrip dest1)).map pyStrip
      Except.ok { sources := sources, destinations := destinations, rateEq := rateEq }

/-- `model_access.process_reactions_1`: parse every `Reactions` entry,
building the dict reaction-ID → parsed reaction in stanza order. -/
def process_reactions_1 (spec : Spec) : Except PyErr (List (PyStr × Reaction)) :=
  spec.Reactions.foldlM
    (fun reactions p => do
      let r ← parse_reaction_1 p.2
      pure (dictSet reactions p.1 r))
    []

/-- Update the object bound to `nm` in place; a missing name is the
`KeyError` branch of `load_reactions_1`, which only prints a warning
and leaves the table unchanged (soft failure). -/
def updateObj (objlist : ObjTable) (nm : PyStr) (f : ModelObject → ModelObject) : ObjTable :=
  if dictHas objlist nm then
    objlist.map (fun p => if p.1 = nm then (p.1, f p.2) else p)
  else objlist

/-- `model_access.load_reactions_1`: for each reaction, record
`outflux[ID] = rateEq` on every non-empty source name found in the
table and `influx[ID] = rateEq` on every non-empty destination name;
unknown names are skipped with a warning. -/
def load_reactions_1 (reactions : List (PyStr × Reaction)) (objlist : ObjTable) : ObjTable :=
  reactions.foldl
    (fun objlist rx =>
      let objlist := rx.2.sources.foldl
        (fun ol s =>
          if s ≠ [] then
            updateObj ol s (fun o => { o with outflux := dictSet o.outflux rx.1 rx.2.rateEq })
          else ol)
        objlist
      rx.2.destinations.foldl
        (fun ol d =>
          if d ≠ [] then
            updateObj ol d (fun o => { o with influx := dictSet o.influx rx.1 rx.2.rateEq })
          else ol)
        objlist)
    objlist

/-! ### `ASModeller/generator_ode.py` -/

/-- `generator_ode.generate_object_table`: assign each entity the next
counter value, walking the object table in iteration order. -/
def generate_object_table (objlist : ObjTable) : List (PyStr × Nat) :=
  (objlist.foldl
    (fun (acc : List (PyStr × Nat) × Nat) p => (dictSet acc.1 p.1 acc.2, acc.2 + 1))
    ([], 0)).1

/-- The inner loop of `substitute_rateEq`: apply, for each table entry
`k ↦ slot` in order, `re.sub(r'\b%s\b' % k, 'y[slot]', e)`. -/
def substituteAll (objTable : List (PyStr × Nat)) (e : PyStr) : PyStr :=
  objTable.foldl (fun e kv => wordSub kv.1 (S "y[" ++ natToStr kv.2 ++ S "]") e) e

/-- `generator_ode.substitute_rateEq`: rewrite every influx and outflux
expression of every object, replacing entity names by their `y[slot]`
accessors via word-boundary `re.sub`, in table iteration order. -/
def substitute_rateEq (objlist : ObjTable) (objTable : List (PyStr × Nat)) : ObjTable :=
  objlist.map (fun p =>
    (p.1,
      { p.2 with
        influx := p.2.influx.map (fun q => (q.1, substituteAll objTable q.2)),
        outflux := p.2.outflux.map (fun q => (q.1, substituteAll objTable q.2)) }))

/-- `re.sub('\.', '_', name)` as used on entity names in the emitted
code (every dot becomes an underscore). -/
def dotToUnderscore (s : PyStr) : PyStr :=
  s.map (fun c => if c = '.' then '_' else c)

/-! ### `ASModeller/generator_network.py` -/

/-- The arrow-splitting stage of `processReactions`
(`[[x.split('->')[0], x.split('->')[1]] for x in reactionList]`):
`x.split('->')[1]` raises `IndexError` when a reaction has no arrow. -/
def splitArrows : List PyStr → Except PyErr (List (PyStr × PyStr))
  | [] => Except.ok []
  | x :: rest =>
    match (pySplit (S "->") x).get? 1 with
    | none => Except.error PyErr.indexError
    | some p1 => do
      let more ← splitArrows rest
      pure (((pySplit (S "->") x).headD [], p1) :: more)

/-- `generator_network.processReactions`: project each reaction text to
its (sources, destinations) token lists, then replace an empty side by
the sentinel entity `X`. -/
def processReactions (reactionList : List PyStr) : Except PyErr (List (List PyStr × List PyStr)) := do
  let reactionList := reactionList.map (fun x => (pySplit (S "|") x).headD [])
  let reactionList := reactionList.map pyStrip
  let reactionList ← splitArrows reactionList
  let reactionList := reactionList.map (fun x => (pySplit (S "+") x.1, pySplit (S "+") x.2))
  let reactionList := reactionList.map (fun x => (x.1.map pyStrip, x.2.map pyStrip))
  pure (reactionList.map (fun x =>
    (if x.1 = [[]] then [S "X"] else x.1,
     if x.2 = [[]] then [S "X"] else x.2)))

/-! ### `ASModeller/model_merge.py` -/

/-- One iteration of the renaming loops of `_renumberReactions` (both
Step 2 on the specification and Step 3 on each object's flux dicts run
exactly this body): `d[table[k]] = d[k]; del d[k]`. -/
def renumberStep (table : List (PyStr × PyStr)) (d : List (PyStr × PyStr)) (k : PyStr) :
    Except PyErr (List (PyStr × PyStr)) := do
  let newID ← keyGet table k
  let v ← keyGet d k
  pure (dictDel (dictSet d newID v) k)

/-- Step 3 of `_renumberReactions` on one flux dict: walk a snapshot of
the keys, rekeying each through `table`.  The Python name `table` is
only bound when the specification flag was set; referencing it
otherwise raises `NameError` — which happens at the first loop
iteration, i.e. only when the dict has at least one key. -/
def renumberFluxes (tableOpt : Option (List (PyStr × PyStr))) (flux : List (PyStr × PyStr)) :
    Except PyErr (List (PyStr × PyStr)) :=
  (dictKeys flux).foldlM
    (fun f k => do
      let table ← match tableOpt with
        | some t => Except.ok t
        | none => Except.error PyErr.nameError
      renumberStep table f k)
    flux

/-- Step 3 of `_renumberReactions`: walk the object table in order,
rekeying each object's influx and outflux dicts (the Python `for name
in modelobj` loop body). -/
def renumberObjs (tableOpt : Option (List (PyStr × PyStr))) :
    ObjTable → Except PyErr ObjTable
  | [] => Except.ok []
  | p :: rest => do
    let influx ← renumberFluxes tableOpt p.2.influx
    let outflux ← renumberFluxes tableOpt p.2.outflux
    let rest ← renumberObjs tableOpt rest
    pure ((p.1, { p.2 with influx := influx, outflux := outflux }) :: rest)

/-- `model_merge._renumberReactions`: renumber all reactions of one
specification (building the renumbering table and rewriting the
`Reactions` stanza when `p_spec`), and rekey every object's influx /
outflux dicts through that table (when `p_modelobj`).  The
`modelnumber` parameter of the Python function only feeds `print`
statements and is omitted; `print` output is not modelled.  (Python
mutates the objects one by one before an exception escapes; the
`Except` model discards those partial mutations, which no claim
observes.) -/
def _renumberReactions (count : Nat) (spec : Spec) (modelobj : ObjTable) (pfx : PyStr)
    (p_spec p_modelobj : Bool) : Except PyErr (Spec × ObjTable × Nat) := do
  let (tableOpt, spec, count) ←
    if p_spec then do
      let tc := spec.Reactions.foldl
        (fun (acc : List (PyStr × PyStr) × Nat) kv =>
          (dictSet acc.1 kv.1 (pfx ++ natToStr acc.2), acc.2 + 1))
        ([], count)
      let reactions ← (dictKeys spec.Reactions).foldlM (renumberStep tc.1) spec.Reactions
      pure ((some tc.1, { spec with Reactions := reactions }, tc.2) :
        Option (List (PyStr × PyStr)) × Spec × Nat)
    else
      pure (none, spec, count)
  let modelobj ←
    if p_modelobj then
      renumberObjs tableOpt modelobj
    else
      pure modelobj
  pure (spec, modelobj, count)

/-- Worker for `renameReactions`: the Python loop
`for index in range(len(specList))` threads the counter through
`_renumberReactions` and writes the results back at the same index;
recursing over both lists in step is the same computation, with
`IndexError` when `modelobjList` is shorter and any extra entries of
`modelobjList` left untouched. -/
def renameReactionsAux (pfx : PyStr) (p_specList p_modelobjList : Bool) :
    Nat → List Spec → List ObjTable → Except PyErr (List Spec × List ObjTable × Nat)
  | count, [], mos => Except.ok ([], mos, count)
  | _, _ :: _, [] => Except.error PyErr.indexError
  | count, s :: ss, mo :: mos => do
    let (s, mo, count) ← _renumberReactions count s mo pfx p_specList p_modelobjList
    let (ss, mos, count) ← renameReactionsAux pfx p_specList p_modelobjList count ss mos
    pure (s :: ss, mo :: mos, count)

/-- `model_merge.renameReactions`: renumber reactions across all
specifications and object tables, the counter starting at 1 and never
resetting. -/
def renameReactions (specList : List Spec) (modelobjList : List ObjTable) (pfx : PyStr)
    (p_specList p_modelobjList : Bool) : Except PyErr (List Spec × List ObjTable) :=
  (renameReactionsAux pfx p_specList p_modelobjList 1 specList modelobjList).map
    (fun r => (r.1, r.2.1))

/-- `model_merge.mergeSpecification`: union every stanza of each
further specification into `spec` (identifiers are suffixed — the
Python `count` is reset to 1 inside the loop, so the suffix is always
`_1`; every other stanza is a plain key union with the later value
winning).  The `statistics` bookkeeping only feeds `print` statements
and is omitted. -/
def mergeSpecification (spec : Spec) (specList : List Spec) : Spec :=
  specList.foldl
    (fun spec s =>
      { Identifiers := s.Identifiers.foldl
          (fun d kv => dictSet d (kv.1 ++ S "_" ++ natToStr 1) kv.2) spec.Identifiers,
        Objects := s.Objects.foldl (fun d kv => dictSet d kv.1 kv.2) spec.Objects,
        Initials := s.Initials.foldl (fun d kv => dictSet d kv.1 kv.2) spec.Initials,
        Variables := s.Variables.foldl (fun d kv => dictSet d kv.1 kv.2) spec.Variables,
        Reactions := s.Reactions.foldl (fun d kv => dictSet d kv.1 kv.2) spec.Reactions })
    spec

/-- The body of the `mergeSpecification` fold, as a named function (the
fold over the remaining specifications applies it left to right). -/
def mergeStep (spec s : Spec) : Spec :=
  { Identifiers := s.Identifiers.foldl
      (fun d kv => dictSet d (kv.1 ++ S "_" ++ natToStr 1) kv.2) spec.Identifiers,
    Objects := s.Objects.foldl (fun d kv => dictSet d kv.1 kv.2) spec.Objects,
    Initials := s.Initials.foldl (fun d kv => dictSet d kv.1 kv.2) spec.Initials,
    Variables := s.Variables.foldl (fun d kv => dictSet d kv.1 kv.2) spec.Variables,
    Reactions := s.Reactions.foldl (fun d kv => dictSet d kv.1 kv.2) spec.Reactions }

/-- The per-object body of `mergeModelObjects`: insert a new name
wholesale; for an existing name, snapshot the current influx / outflux
expression lists (`c_in` / `c_out`) and add only those incoming entries
whose expression text is not already present (duplicate-contribution
suppression).  The Python `objectNames` list always equals the keys of
the merged dict, so membership is tested with `dictHas`. -/
def mergeOneObject (modelobj : ObjTable) (nm : PyStr) (nobj : ModelObject) : ObjTable :=
  match dictGet modelobj nm with
  | none => dictSet modelobj nm nobj
  | some cobj =>
    let c_in := cobj.influx.map Prod.snd
    let c_out := cobj.outflux.map Prod.snd
    let influx := nobj.influx.foldl
      (fun fl kv => if c_in.contains kv.2 then fl else dictSet fl kv.1 kv.2) cobj.influx
    let outflux := nobj.outflux.foldl
      (fun fl kv => if c_out.contains kv.2 then fl else dictSet fl kv.1 kv.2) cobj.outflux
    dictSet modelobj nm { cobj with influx := influx, outflux := outflux }

/-- `model_merge.mergeModelObjects`: merge every further object table
into `modelobj`, object by object. -/
def mergeModelObjects (modelobj : ObjTable) (modelobjList : List ObjTable) : ObjTable :=
  modelobjList.foldl
    (fun modelobj mobjs => mobjs.foldl (fun acc p => mergeOneObject acc p.1 p.2) modelobj)
    modelobj

/-- `model_merge.modelMerge` (value level): renumber, then merge the
specification list (when `p_specList`) and the object-table list (when
`p_modelobjList`); a disabled side returns `None`.  Note
`merged_spec = specList[0]` / `merged_modelobj = modelobjList[0]` in
the Python — the merge target is the first input object; the reference
level of that assignment is captured by `modelMergeH` below. -/
def modelMerge (specList : List Spec) (modelobjList : List ObjTable) (pfx : PyStr)
    (p_specList p_modelobjList : Bool) : Except PyErr (Option Spec × Option ObjTable) := do
  let (specList, modelobjList) ←
    renameReactions specList modelobjList pfx p_specList p_modelobjList
  let merged_spec :=
    match p_specList, specList with
    | true, s0 :: rest => some (mergeSpecification s0 rest)
    | _, _ => none
  let merged_modelobj :=
    match p_modelobjList, modelobjList with
    | true, m0 :: rest => some (mergeModelObjects m0 rest)
    | _, _ => none
  pure (merged_spec, merged_modelobj)

/-- `model_merge.modelMerge` at the reference level: Python variables
hold references into a heap of objects.  `spHeap` / `obHeap` are the
live `ConfigParser` / object-table objects (addresses are list
positions) and `specRefs` / `objRefs` the references making up the
argument lists.  Renumbering mutates the referenced objects in place;
`merged_spec = specList[0]` aliases the first input object, which
`mergeSpecification` then mutates in place (it only reads the rest);
likewise for the object tables.  The function returns the final heaps
and the references of the returned merged objects.  The renumbering
loop (over `range(len(specList))`) comes first: -/
def mergeHRenumberLoop (spHeap : List Spec) (obHeap : List ObjTable)
    (specRefs objRefs : List Nat) (pfx : PyStr) (p_specList p_modelobjList : Bool) :
    Except PyErr (List Spec × List ObjTable × Nat) :=
  (List.range specRefs.length).foldlM
    (fun (st : List Spec × List ObjTable × Nat) index => do
      let r ← heapGet specRefs index
      let ro ← heapGet objRefs index
      let spec ← heapGet st.1 r
      let mo ← heapGet st.2.1 ro
      let (spec, mo, count) ←
        _renumberReactions st.2.2 spec mo pfx p_specList p_modelobjList
      pure (st.1.set r spec, st.2.1.set ro mo, count))
    (spHeap, obHeap, 1)

/-- The `merged_spec = specList[0]; mergeSpecification(...)` phase of
`modelMerge` at the reference level: the merge target is the object the
first reference points at, mutated in place; the returned reference is
that same first input reference. -/
def mergeHSpecPhase (spHeap : List Spec) (specRefs : List Nat) (p_specList : Bool) :
    Except PyErr (List Spec × Option Nat) :=
  match p_specList, specRefs with
  | true, r0 :: rest => do
    let s0 ← heapGet spHeap r0
    let others ← heapGets spHeap rest
    pure (spHeap.set r0 (mergeSpecification s0 others), some r0)
  | _, _ => pure (spHeap, none)

/-- The `merged_modelobj = modelobjList[0]; mergeModelObjects(...)`
phase of `modelMerge` at the reference level. -/
def mergeHObjPhase (obHeap : List ObjTable) (objRefs : List Nat) (p_modelobjList : Bool) :
    Except PyErr (List ObjTable × Option Nat) :=
  match p_modelobjList, objRefs with
  | true, r0 :: rest => do
    let m0 ← heapGet obHeap r0
    let others ← heapGets obHeap rest
    pure (obHeap.set r0 (mergeModelObjects m0 others), some r0)
  | _, _ => pure (obHeap, none)

def modelMergeH (spHeap : List Spec) (obHeap : List ObjTable)
    (specRefs objRefs : List Nat) (pfx : PyStr) (p_specList p_modelobjList : Bool) :
    Except PyErr (List Spec × List ObjTable × Option Nat × Option Nat) := do
  let (spHeap, obHeap, _) ←
    mergeHRenumberLoop spHeap obHeap specRefs objRefs pfx p_specList p_modelobjList
  let (spHeap, mergedSpecRef) ← mergeHSpecPhase spHeap specRefs p_specList
  let (obHeap, mergedObjRef) ← mergeHObjPhase obHeap objRefs p_modelobjList
  pure (spHeap, obHeap, mergedSpecRef, mergedObjRef)

/-! ### `generator_ode.print_Setup`

The Python function first reads the solver library source
(`open('ASModeller\\ode.py').readlines()`, each line's trailing newline
chopped); that file is not part of this repository snapshot, so the
resulting line list `odecode` is passed in as an opaque parameter.
`timestep`, `endtime` and the two boundary numbers only ever flow into
the emitted text through `str(...)`, so they are taken here as the
already-rendered strings. -/

/-- The eleven solver identifiers accepted by `print_Setup`. -/
def supportedSolvers : List PyStr :=
  [S "Euler", S "Heun", S "RK3", S "RK4", S "RK38", S "CK4", S "CK5",
   S "RKF4", S "RKF5", S "DP4", S "DP5"]

/-- Step 1 of `print_Setup`: the header slice `odecode[8:37]` plus, for
each recognised solver name, that solver's slice of the library; a
name matching none of the eleven `if`s contributes nothing. -/
def solverCode (odecode : List PyStr) (solver : PyStr) : List PyStr :=
  let printList := sliceList odecode 8 37
  let printList := if solver = S "Euler" then printList ++ sliceList odecode 37 115 else printList
  let printList := if solver = S "Heun" then printList ++ sliceList odecode 115 204 else printList
  let printList := if solver = S "RK3" then printList ++ sliceList odecode 204 303 else printList
  let printList := if solver = S "RK4" then printList ++ sliceList odecode 303 409 else printList
  let printList := if solver = S "RK38" then printList ++ sliceList odecode 409 515 else printList
  let printList := if solver = S "CK4" then printList ++ sliceList odecode 515 641 else printList
  let printList := if solver = S "CK5" then printList ++ sliceList odecode 641 766 else printList
  let printList := if solver = S "RKF4" then printList ++ sliceList odecode 766 892 else printList
  let printList := if solver = S "RKF5" then printList ++ sliceList odecode 892 1020 else printList
  let printList := if solver = S "DP4" then printList ++ sliceList odecode 1020 1158 else printList
  let printList := if solver = S "DP5" then printList ++ sliceList odecode 1158 1296 else printList
  printList

/-- The single-quote character, built by code point to keep source
hygiene. -/
def quoteChar : Char := Char.ofNat 39

/-- Python `str(...)` of a list of strings, e.g.
`['time', 'A', 'B']` (names never contain quotes, so no escaping). -/
def pyReprStrList (l : List PyStr) : PyStr :=
  S "[" ++ List.intercalate (S ", ") (l.map (fun s => quoteChar :: s ++ [quoteChar])) ++ S "]"

/-- The `labels` list accumulated inside `print_Setup`'s ODE-vector
loop: `'time'` followed by each entity name (dots replaced by
underscores), in slot order. -/
def print_Setup_labels (objTable : List (PyStr × Nat)) : List PyStr :=
  S "time" :: objTable.map (fun p => dotToUnderscore p.1)

/-- The `y` initial-state vector loop of `print_Setup` Step 3: one
line per slot, looking each name up in the object table
(`obj = objlist[name]` raises `KeyError` when absent). -/
def yVecLines (objlist : ObjTable) : List (PyStr × Nat) → Except PyErr (List PyStr)
  | [] => Except.ok []
  | p :: rest => do
    let obj ← keyGet objlist p.1
    let more ← yVecLines objlist rest
    pure ((S "y[" ++ natToStr p.2 ++ S "] = " ++ obj.value_initial ++ S "    # " ++
      p.1 ++ S " : " ++ obj.description) :: more)

/-- Steps 2–6 of `print_Setup`: ODE vector, initial-state vector (its
`objlist[name]` lookup can raise `KeyError`), labels line, boundary
tables and the driver invocation. -/
def print_SetupRest (objlist : ObjTable) (objTable : List (PyStr × Nat)) (solver : PyStr)
    (timestep endtime : PyStr) (lowerbound upperbound : PyStr × PyStr) :
    Except PyErr (List PyStr) := do
  let printList := [S "ODE = list(range(" ++ natToStr objTable.length ++ S "))"]
  let printList := printList ++
    objTable.map (fun p => S "ODE[" ++ natToStr p.2 ++ S "] = " ++ dotToUnderscore p.1)
  let printList := printList ++ [S " "]
  let printList := printList ++ [S "y = list(range(" ++ natToStr objlist.length ++ S "))"]
  let yLines ← yVecLines objlist objTable
  let printList := printList ++ yLines ++ [S " "]
  let printList := printList ++
    [S "labels = " ++ pyReprStrList (print_Setup_labels objTable)] ++ [S " "]
  let printList := printList ++
    [S "lowerbound = \x7b" ++
      (objTable.map (fun p => quoteChar :: natToStr p.2 ++ [quoteChar] ++ S ": [" ++
        lowerbound.1 ++ S ", " ++ lowerbound.2 ++ S "], ")).flatten ++ S "\x7d"] ++ [S " "]
  let printList := printList ++
    [S "upperbound = \x7b" ++
      (objTable.map (fun p => quoteChar :: natToStr p.2 ++ [quoteChar] ++ S ": [" ++
        upperbound.1 ++ S ", " ++ upperbound.2 ++ S "], ")).flatten ++ S "\x7d"] ++ [S " "]
  pure (printList ++
    [S "model = " ++ solver ++ S "(ODE, 0.0, y, " ++ timestep ++ S ", " ++ endtime ++
      S ", None, lowerbound, upperbound)"])

/-- `generator_ode.print_Setup`: solver-library slice selection followed
by the simulation-setup emission. -/
def print_Setup (odecode : List PyStr) (objlist : ObjTable) (objTable : List (PyStr × Nat))
    (solver : PyStr) (timestep endtime : PyStr) (lowerbound upperbound : PyStr × PyStr) :
    Except PyErr (List PyStr) := do
  let rest ← print_SetupRest objlist objTable solver timestep endtime lowerbound upperbound
  pure (solverCode odecode solver ++ rest)

/-! ### `model_access.modelspec_reader` (the `ConfigParser` read)

`modelspec_reader` delegates the parse to the standard-library
`ConfigParser`, configured with `delimiters=('=', ':')`,
`comment_prefixes=inline_comment_prefixes=('#', ';')`,
`allow_no_value=True`, `strict=False` and `optionxform=str`.  The
definitions below model that parser's per-line behaviour (CPython
`RawConfigParser._read`) under exactly this configuration; values are
stored raw (interpolation is applied on read access, not during
parsing, and no claim touches it). -/

/-- Cut a line at its first inline-comment prefix (`#` or `;` at the
start of the line or preceded by whitespace). -/
def stripInline : Option Char → PyStr → PyStr
  | _, [] => []
  | prev, c :: rest =>
    if (c = '#' || c = ';') &&
        (match prev with | none => true | some p => isPySpace p) then []
    else c :: stripInline (some c) rest

/-- Inline-comment stripping, from the start of a line. -/
def stripInlineComment (line : PyStr) : PyStr := stripInline none line

/-- Split an option line at its first `=` or `:` delimiter, as the
configured `OPTCRE` does. -/
def splitAtDelim : PyStr → Option (PyStr × PyStr)
  | [] => none
  | c :: rest =>
    if c = '=' || c = ':' then some ([], rest)
    else (splitAtDelim rest).map (fun p => (c :: p.1, p.2))

/-- Match the section-header pattern `\[(?P<header>[^]]+)\]` against a
stripped line. -/
def sectionHeader? (v : PyStr) : Option PyStr :=
  match v with
  | [] => none
  | c :: rest =>
    if c = '[' then
      let header := rest.takeWhile (fun d => d ≠ ']')
      if header ≠ [] ∧ rest.contains ']' then some header else none
    else none

/-- The stanza table built by the reader: section name → (key →
optional value; `none` is Python's `None` for a delimiterless key under
`allow_no_value=True`). -/
abbrev ConfDict := List (PyStr × List (PyStr × Option PyStr))

/-- Write `conf[sect][key] = v`, creating the section when needed. -/
def confSetOption (conf : ConfDict) (sect key : PyStr) (v : Option PyStr) : ConfDict :=
  match dictGet conf sect with
  | some d => dictSet conf sect (dictSet d key v)
  | none => dictSet conf sect [(key, v)]

/-- One line of the `ConfigParser` read loop.  State: current section,
last option name (continuation target), accumulated table.  Blank and
comment lines are skipped; an indented non-blank line continues the
previous option's value; a section header opens (or re-opens,
`strict=False`) a section; otherwise the line is an option: split at
the first `=`/`:` into key and value, or — `allow_no_value=True` —
taken whole as a key bound to `None` when no delimiter occurs.  Content
before any section header raises `MissingSectionHeaderError`; a
continuation with no preceding option raises `ParsingError`. -/
def readLine (st : Option PyStr × Option PyStr × ConfDict) (line : PyStr) :
    Except PyErr (Option PyStr × Option PyStr × ConfDict) :=
  let value := pyStrip (stripInlineComment line)
  if value = [] then Except.ok st
  else
    match line with
    | [] => Except.ok st
    | c :: _ =>
      if isPySpace c then
        match st.1, st.2.1 with
        | some sect, some opt =>
          match dictGet st.2.2 sect with
          | some d =>
            match dictGet d opt with
            | some (some v) =>
              Except.ok (st.1, st.2.1, dictSet st.2.2 sect (dictSet d opt (some (v ++ '\n' :: value))))
            | _ => Except.error PyErr.parsingError
          | none => Except.error PyErr.parsingError
        | _, _ => Except.error PyErr.parsingError
      else
        match sectionHeader? value with
        | some header =>
          Except.ok (some header, none,
            if dictHas st.2.2 header then st.2.2 else dictSet st.2.2 header [])
        | none =>
          match st.1 with
          | none => Except.error PyErr.missingSectionHeader
          | some sect =>
            match splitAtDelim value with
            | some kv =>
              Except.ok (some sect, some (pyRStrip kv.1),
                confSetOption st.2.2 sect (pyRStrip kv.1) (some (pyStrip kv.2)))
            | none =>
              Except.ok (some sect, some value, confSetOption st.2.2 sect value Option.none)

/-- `model_access.modelspec_reader`'s parse of the specification text
(given as its list of lines): fold the `ConfigParser` line reader over
the input. -/
def modelspec_read (lines : List PyStr) : Except PyErr ConfDict := do
  let st ← lines.foldlM readLine (Option.none, Option.none, [])
  pure st.2.2

/-! ### Characterisation helpers used in theorem statements -/

/-- The run of fresh reaction identifiers `pfx ++ str(c)`,
`pfx ++ str(c+1)`, …, `pfx ++ str(c+n-1)` that renumbering hands out. -/
def newIDs (pfx : PyStr) : Nat → Nat → List PyStr
  | _, 0 => []
  | c, n + 1 => (pfx ++ natToStr c) :: newIDs pfx (c + 1) n

/-- The renumbering table Step 1 of `_renumberReactions` builds: each
reaction key, in stanza order, bound to the next fresh identifier. -/
def newIDTable (pfx : PyStr) : Nat → List (PyStr × PyStr) → List (PyStr × PyStr)
  | _, [] => []
  | c, kv :: rest => (kv.1, pfx ++ natToStr c) :: newIDTable pfx (c + 1) rest

/-- The new identifier of key `k` under a renumbering table (total
version; identity on keys outside the table, a case that never arises
under the theorems' hypotheses). -/
def nidOf (table : List (PyStr × PyStr)) (k : PyStr) : PyStr :=
  (dictGet table k).getD k

/-- The specification after renumbering through a table: each reaction
key replaced by its new identifier, values untouched. -/
def renameSpecWith (tbl : List (PyStr × PyStr)) (sp : Spec) : Spec :=
  { sp with Reactions := sp.Reactions.map (fun p => (nidOf tbl p.1, p.2)) }

/-- An object table after renumbering through a table: every influx and
outflux key replaced by its new identifier, values untouched. -/
def renameObjWith (tbl : List (PyStr × PyStr)) (mo : ObjTable) : ObjTable :=
  mo.map (fun p => (p.1,
    { p.2 with
      influx := p.2.influx.map (fun q => (nidOf tbl q.1, q.2)),
      outflux := p.2.outflux.map (fun q => (nidOf tbl q.1, q.2)) }))

/-- The expected result of `renameReactionsAux` when both flags are
set: each specification / object-table pair renumbered through its own
table, the counter threading through by each specification's reaction
count.  (The mismatched-length case is unreachable under the theorems'
hypotheses.) -/
def renameListExpected (pfx : PyStr) : Nat → List Spec → List ObjTable →
    List Spec × List ObjTable × Nat
  | count, [], mos => ([], mos, count)
  | count, _ :: _, [] => ([], [], count)
  | count, s :: ss, mo :: mos =>
    let tbl := newIDTable pfx count s.Reactions
    let r := renameListExpected pfx (count + s.Reactions.length) ss mos
    (renameSpecWith tbl s :: r.1, renameObjWith tbl mo :: r.2.1, r.2.2)

/-- The expected index table of `generate_object_table`: names in
order, numbered consecutively from `c`. -/
def slotTable : Nat → List PyStr → List (PyStr × Nat)
  | _, [] => []
  | c, n :: rest => (n, c) :: slotTable (c + 1) rest

/-! ### Concrete instances used by the claims' theorems -/

/-- The end-to-end scenario specification: objects `A` (substrate) and
`B` (product), `Initials: A = 10`, reaction `r1 = A -> B | 0.1*A`. -/
def specC1 : Spec :=
  { Identifiers := [], Objects := [(S "A", S "substrate"), (S "B", S "product")],
    Initials := [(S "A", S "10")], Variables := [],
    Reactions := [(S "r1", S "A -> B | 0.1*A")] }

/-- The single-model compilation pipeline on `specC1`, composed exactly
as `astools.generateODEScript` → `generate_ODE` do: graph building
(`generate_object_list_1`, `load_initials_1`, `process_reactions_1`,
`load_reactions_1`), index assignment (`generate_object_table`) and
rate-law substitution (`substitute_rateEq`). -/
def pipelineC1 : Option (ObjTable × List (PyStr × Nat)) :=
  match process_reactions_1 specC1 with
  | Except.error _ => none
  | Except.ok reactions =>
    let objlist := load_reactions_1 reactions
      (load_initials_1 specC1 (generate_object_list_1 specC1))
    let objTable := generate_object_table objlist
    some (substitute_rateEq objlist objTable, objTable)

/-- A specification whose reaction has an empty source side. -/
def specC5 : Spec :=
  { Identifiers := [], Objects := [(S "B", S "product")], Initials := [], Variables := [],
    Reactions := [(S "r1", S " -> B | 0.1")] }

/-- An object table containing an entity literally named `y` after an
entity `B`, with `B` occurring in a rate expression. -/
def objlistC4 : ObjTable :=
  [(S "B", { name := S "B", description := [], value_initial := S "0",
             influx := [(S "r1", S "B")], outflux := [] }),
   (S "y", { name := S "y", description := [], value_initial := S "0",
             influx := [], outflux := [] })]

/-- The index table for `objlistC4` (declaration order: `B`, `y`). -/
def objTableC4 : List (PyStr × Nat) := [(S "B", 0), (S "y", 1)]

/-- A stand-in solver library listing whose lines are pairwise distinct
(line `i` reads `i`), so each solver slice is identifiable. -/
def odecodeC6 : List PyStr := (List.range 1296).map natToStr

/-- A one-entity object table / index table for the solver-name claim. -/
def objlistC6 : ObjTable :=
  [(S "A", { name := S "A", description := S "d", value_initial := S "1",
             influx := [], outflux := [] })]

/-- Index table for `objlistC6`. -/
def objTableC6 : List (PyStr × Nat) := [(S "A", 0)]

/-- First merge input for the aliasing claim. -/
def specC9a : Spec :=
  { Identifiers := [], Objects := [(S "P", S "x")], Initials := [(S "P", S "2")],
    Variables := [], Reactions := [(S "r1", S "P -> Q | 3*P")] }

/-- Second merge input for the aliasing claim. -/
def specC9b : Spec :=
  { Identifiers := [], Objects := [(S "Q", S "z")], Initials := [], Variables := [],
    Reactions := [(S "r1", S "Q -> P | 5*Q")] }

/-- Object table of `specC9a`. -/
def obC9a : ObjTable :=
  [(S "P", { name := S "P", description := S "x", value_initial := S "2",
             influx := [], outflux := [(S "r1", S "3*P")] })]

/-- Object table of `specC9b`. -/
def obC9b : ObjTable :=
  [(S "Q", { name := S "Q", description := S "z", value_initial := S "0",
             influx := [], outflux := [(S "r1", S "5*Q")] })]

/-- First merge-collision input: declares reaction id `r1`. -/
def specC2a : Spec :=
  { Identifiers := [], Objects := [(S "M", S "m")], Initials := [], Variables := [],
    Reactions := [(S "r1", S "M -> N | 2*M")] }

/-- Second merge-collision input: also declares reaction id `r1`. -/
def specC2b : Spec :=
  { Identifiers := [], Objects := [(S "N", S "n")], Initials := [], Variables := [],
    Reactions := [(S "r1", S "N -> M | 7*N")] }

/-- Object table of `specC2a`. -/
def obC2a : ObjTable :=
  [(S "M", { name := S "M", description := S "m", value_initial := S "0",
             influx := [], outflux := [(S "r1", S "2*M")] })]

/-- Object table of `specC2b`. -/
def obC2b : ObjTable :=
  [(S "N", { name := S "N", description := S "n", value_initial := S "0",
             influx := [], outflux := [(S "r1", S "7*N")] })]

/-- Self-merge input specification for the de-duplication claim. -/
def specC3 : Spec :=
  { Identifiers := [], Objects := [(S "G", S "g"), (S "H", S "h")],
    Initials := [(S "G", S "4")], Variables := [],
    Reactions := [(S "ra", S "G -> H | 0.5*G"), (S "rb", S "H -> G | 0.2*H")] }

/-- Object table of `specC3` (as the graph builder would produce). -/
def obC3 : ObjTable :=
  [(S "G", { name := S "G", description := S "g", value_initial := S "4",
             influx := [(S "rb", S "0.2*H")], outflux := [(S "ra", S "0.5*G")] }),
   (S "H", { name := S "H", description := S "h", value_initial := S "0",
             influx := [(S "ra", S "0.5*G")], outflux := [(S "rb", S "0.2*H")] })]

/-- Witness specification for the index-assignment claim. -/
def specC8 : Spec :=
  { Identifiers := [], Objects := [(S "U", S "u"), (S "V", S "v"), (S "W", S "w")],
    Initials := [(S "V", S "9")], Variables := [],
    Reactions := [(S "r1", S "U + V -> W | k1*U*V")] }

/-- Witness inputs for the flags-interaction claim: one specification
and one object table carrying a flux entry. -/
def specC10 : Spec :=
  { Identifiers := [], Objects := [(S "Z", S "z")], Initials := [], Variables := [],
    Reactions := [(S "r1", S "Z -> | 2*Z")] }

/-- Object table of `specC10` (non-empty outflux). -/
def obC10 : ObjTable :=
  [(S "Z", { name := S "Z", description := S "z", value_initial := S "0",
             influx := [], outflux := [(S "r1", S "2*Z")] })]

/-! ## Claim theorems -/

set_option maxRecDepth 8192

/-- C1.  For the specification with objects `A` (substrate) and `B`
(product), `Initials: A = 10` and reaction `r1 = A -> B | 0.1*A`, the
compiled pipeline yields entity `B` with influx exactly
`{r1: "0.1*y[0]"}`, entity `A` with outflux exactly `{r1: "0.1*y[0]"}`
(`A` being assigned slot 0) and the generated labels list
`["time", "A", "B"]`. -/
theorem C1_end_to_end :
    pipelineC1.map (fun r => (dictGet r.1 (S "B")).map ModelObject.influx)
        = some (some [(S "r1", S "0.1*y[0]")])
    ∧ pipelineC1.map (fun r => (dictGet r.1 (S "A")).map ModelObject.outflux)
        = some (some [(S "r1", S "0.1*y[0]")])
    ∧ pipelineC1.map (fun r => dictGet r.2 (S "A")) = some (some 0)
    ∧ pipelineC1.map (fun r => print_Setup_labels r.2)
        = some [S "time", S "A", S "B"] := by decide

/-- C4, counterexample.  With the object table `[B ↦ 0, y ↦ 1]` and
`B`'s influx expression `"B"`, the substitution pass first rewrites the
whole-token `B` to `y[0]` and then — contrary to the claim that a name
inside another entity's already-substituted accessor is never replaced,
whatever the substitution order — the entity name `y` matches inside
that accessor at a word boundary (`[` is not a word character) and the
expression is corrupted to `y[1][0]` instead of the whole-token-only
result `y[0]`. -/
theorem C4_counterexample :
    (dictGet (substitute_rateEq objlistC4 objTableC4) (S "B")).map ModelObject.influx
      = some [(S "r1", S "y[1][0]")] ∧ S "y[1][0]" ≠ S "y[0]" := by decide

/-- C5, counterexample.  For the reaction `r1 = " -> B | 0.1"` with an
empty source side, the graph builder's `process_reactions_1` parses the
source list as `['']` — not the sentinel `['X']` the claim asserts
(that substitution only happens in `generator_network.processReactions`). -/
theorem C5_counterexample :
    (process_reactions_1 specC5).toOption.map
        (fun rs => (dictGet rs (S "r1")).map Reaction.sources)
      = some (some [[]]) ∧ ([[]] : List PyStr) ≠ [S "X"] := by decide

/-- C6, counterexample.  With the unknown solver name `FOO`,
`print_Setup` does not fail: it returns a 42-line script whose solver
section is just the header slice `odecode[8:37]` (none of the eleven
solver bodies) and whose final driver line invokes the undefined name
`FOO` — generation silently produces an output script instead of
raising a configuration error. -/
theorem C6_counterexample :
    (print_Setup odecodeC6 objlistC6 objTableC6 (S "FOO") (S "1") (S "21600")
        (S "0.0", S "0.0") (S "0.001", S "0.001")).toOption.map
        (fun out => (out.length, out.getLast?))
      = some (42, some (S "model = FOO(ODE, 0.0, y, 1, 21600, None, lowerbound, upperbound)"))
    ∧ solverCode odecodeC6 (S "FOO") = sliceList odecodeC6 8 37 := by decide

/-- C7, counterexample.  The loader is configured with
`allow_no_value=True`, so the stanza line `foo bar` — which no `=` or
`:` delimiter splits — is accepted as the key `foo bar` bound to `None`
rather than raising a `ParseError`. -/
theorem C7_counterexample :
    (modelspec_read [S "[Objects]", S "foo bar"]).toOption
      = some [(S "Objects", [(S "foo bar", Option.none)])] := by decide

/-- C9, counterexample.  Merging two one-reaction models at heap
addresses `0` and `1`: the returned merged specification and merged
object table are the objects at address `0` — the first *input*
specification and table themselves (`merged_spec = specList[0]` in the
source) — and the heaps keep length 2, so no fresh instance is ever
allocated; the merged objects are not distinct from the inputs. -/
theorem C9_counterexample :
    (modelMergeH [specC9a, specC9b] [obC9a, obC9b] [0, 1] [0, 1] (S "m") true true).toOption.map
        (fun r => (r.2.2.1, r.2.2.2, r.1.length, r.2.1.length))
      = some (some 0, some 0, 2, 2) ∧ (0 : Nat) ∈ [0, 1] := by decide

theorem exceptOkBind {α β : Type} (a : α) (f : α → Except PyErr β) :
    (Except.ok a >>= f) = f a := rfl

theorem exceptErrBind {α β : Type} (e : PyErr) (f : α → Except PyErr β) :
    (Except.error e >>= f : Except PyErr β) = Except.error e := rfl

theorem exceptMapOk {α β : Type} (a : α) (f : α → β) :
    (f <$> (Except.ok a : Except PyErr α)) = Except.ok (f a) := rfl

theorem exceptMapErr {α β : Type} (e : PyErr) (f : α → β) :
    (f <$> (Except.error e : Except PyErr α)) = Except.error e := rfl

theorem renumberFluxes_none_nil : renumberFluxes Option.none [] = Except.ok [] := rfl

theorem renumberFluxes_none_err (flux : List (PyStr × PyStr)) (h : flux ≠ []) :
    renumberFluxes Option.none flux = Except.error PyErr.nameError := by
  match flux, h with
  | p :: rest, _ => rfl

theorem renumberObjs_none_ok (mo : ObjTable)
    (h : ∀ p ∈ mo, p.2.influx = [] ∧ p.2.outflux = []) :
    renumberObjs Option.none mo = Except.ok mo := by
  induction mo with
  | nil => rfl
  | cons p rest ih =>
    obtain ⟨nm, n, d, vi, infl, outf⟩ := p
    have hp := h _ (List.mem_cons_self _ _)
    simp only at hp
    obtain ⟨h1, h2⟩ := hp
    subst h1
    subst h2
    have hrest := ih (fun q hq => h q (List.mem_cons_of_mem _ hq))
    simp [renumberObjs, renumberFluxes_none_nil, hrest, exceptOkBind]

theorem renumberObjs_none_err (mo : ObjTable)
    (h : ∃ p ∈ mo, p.2.influx ≠ [] ∨ p.2.outflux ≠ []) :
    renumberObjs Option.none mo = Except.error PyErr.nameError := by
  induction mo with
  | nil =>
    rcases h with ⟨q, hq, _⟩
    exact absurd hq (List.not_mem_nil q)
  | cons p rest ih =>
    by_cases hin : p.2.influx = []
    · by_cases hout : p.2.outflux = []
      · have hex : ∃ q ∈ rest, q.2.influx ≠ [] ∨ q.2.outflux ≠ [] := by
          rcases h with ⟨q, hq, hflux⟩
          rcases List.mem_cons.mp hq with rfl | hq2
          · exact absurd hflux (by simp [hin, hout])
          · exact ⟨q, hq2, hflux⟩
        simp [renumberObjs, hin, hout, renumberFluxes_none_nil, ih hex,
          exceptOkBind, exceptErrBind, exceptMapErr]
      · simp [renumberObjs, hin, renumberFluxes_none_nil,
          renumberFluxes_none_err _ hout, exceptOkBind, exceptErrBind]
    · simp [renumberObjs, renumberFluxes_none_err _ hin, exceptErrBind]

theorem _renumberReactions_noSpec_ok (count : Nat) (spec : Spec) (mo : ObjTable) (pfx : PyStr)
    (h : ∀ p ∈ mo, p.2.influx = [] ∧ p.2.outflux = []) :
    _renumberReactions count spec mo pfx false true = Except.ok (spec, mo, count) := by
  simp [_renumberReactions, renumberObjs_none_ok mo h, exceptOkBind]

theorem _renumberReactions_noSpec_err (count : Nat) (spec : Spec) (mo : ObjTable) (pfx : PyStr)
    (h : ∃ p ∈ mo, p.2.influx ≠ [] ∨ p.2.outflux ≠ []) :
    _renumberReactions count spec mo pfx false true = Except.error PyErr.nameError := by
  simp [_renumberReactions, renumberObjs_none_err mo h, exceptOkBind, exceptErrBind]

theorem renameReactionsAux_noSpec_err (pfx : PyStr) :
    ∀ (specs : List Spec) (mos : List ObjTable) (count : Nat),
      specs.length = mos.length →
      (∃ mo ∈ mos, ∃ p ∈ mo, p.2.influx ≠ [] ∨ p.2.outflux ≠ []) →
      renameReactionsAux pfx false true count specs mos = Except.error PyErr.nameError
  | [], [], _, _, h => by
    rcases h with ⟨mo, hmo, _⟩
    exact absurd hmo (List.not_mem_nil mo)
  | [], mo :: mos, _, hlen, _ => by simp at hlen
  | s :: ss, [], _, hlen, _ => by simp at hlen
  | s :: ss, mo :: mos, count, hlen, h => by
    by_cases hflux : ∃ p ∈ mo, p.2.influx ≠ [] ∨ p.2.outflux ≠ []
    · simp [renameReactionsAux, _renumberReactions_noSpec_err count s mo pfx hflux,
        exceptErrBind]
    · have hall : ∀ p ∈ mo, p.2.influx = [] ∧ p.2.outflux = [] := by
        intro p hp
        constructor
        · by_contra hne
          exact hflux ⟨p, hp, Or.inl hne⟩
        · by_contra hne
          exact hflux ⟨p, hp, Or.inr hne⟩
      have hex : ∃ m ∈ mos, ∃ p ∈ m, p.2.influx ≠ [] ∨ p.2.outflux ≠ [] := by
        rcases h with ⟨m, hm, hp⟩
        rcases List.mem_cons.mp hm with rfl | hm2
        · exact absurd hp hflux
        · exact ⟨m, hm2, hp⟩
      have ihres := renameReactionsAux_noSpec_err pfx ss mos count
        (by simpa using hlen) hex
      simp [renameReactionsAux, _renumberReactions_noSpec_ok count s mo pfx hall,
        exceptOkBind, ihres, exceptErrBind]

/-- C10.  Calling the merge with the specification-merge flag disabled
and the entity-table-merge flag enabled (`p_specList=False`,
`p_modelobjList=True`) raises an unhandled `NameError` whenever any
input entity table holds at least one influx or outflux entry: the
renumbering table is only constructed when the specification flag is
set, yet Step 3 still consults it when rekeying the flux maps, so the
value-only merge mode never returns a merged entity table. -/
theorem C10_flags_nameError (specList : List Spec) (modelobjList : List ObjTable) (pfx : PyStr)
    (hlen : specList.length = modelobjList.length)
    (h : ∃ mo ∈ modelobjList, ∃ p ∈ mo, p.2.influx ≠ [] ∨ p.2.outflux ≠ []) :
    modelMerge specList modelobjList pfx false true = Except.error PyErr.nameError := by
  unfold modelMerge renameReactions
  rw [renameReactionsAux_noSpec_err pfx specList modelobjList 1 hlen h]
  rfl

/-- Witness for `C10_flags_nameError` at a concrete one-model input. -/
theorem C10_flags_nameError_witness :
    modelMerge [specC10] [obC10] (S "exp") false true = Except.error PyErr.nameError :=
  C10_flags_nameError [specC10] [obC10] (S "exp") rfl (by decide)

theorem foldlM_ok_invariant {σ α : Type} (P : σ → Prop) (f : σ → α → Except PyErr σ) :
    ∀ (l : List α) (init : σ), P init →
      (∀ s a s', P s → f s a = Except.ok s' → P s') →
      ∀ s', l.foldlM f init = Except.ok s' → P s'
  | [], init, hinit, _, s', h => by
    have : init = s' := by
      simpa [List.foldlM_nil, pure, Except.pure] using h
    exact this ▸ hinit
  | a :: l, init, hinit, hstep, s', h => by
    rw [List.foldlM_cons] at h
    cases hf : f init a with
    | error e => rw [hf] at h; exact absurd h (by simp [exceptErrBind])
    | ok s1 =>
      rw [hf, exceptOkBind] at h
      exact foldlM_ok_invariant P f l s1 (hstep init a s1 hinit hf) hstep s' h

theorem mergeHSpecPhase_spec (spHeap : List Spec) (specRefs : List Nat) (p1 : Bool)
    (out : List Spec × Option Nat) (h : mergeHSpecPhase spHeap specRefs p1 = Except.ok out) :
    (∀ r, out.2 = some r → specRefs.head? = some r) ∧ out.1.length = spHeap.length := by
  cases p1 with
  | false =>
    simp only [mergeHSpecPhase, pure, Except.pure, Except.ok.injEq] at h
    subst h
    exact ⟨fun r hr => by simp at hr, rfl⟩
  | true =>
    cases specRefs with
    | nil =>
      simp only [mergeHSpecPhase, pure, Except.pure, Except.ok.injEq] at h
      subst h
      exact ⟨fun r hr => by simp at hr, rfl⟩
    | cons r0 rest =>
      simp only [mergeHSpecPhase] at h
      cases h0 : heapGet spHeap r0 with
      | error e =>
        rw [h0, exceptErrBind] at h
        exact absurd h (by simp)
      | ok s0 =>
        rw [h0, exceptOkBind] at h
        cases h1 : heapGets spHeap rest with
        | error e =>
          rw [h1, exceptErrBind] at h
          exact absurd h (by simp)
        | ok others =>
          rw [h1, exceptOkBind] at h
          simp only [pure, Except.pure, Except.ok.injEq] at h
          subst h
          refine ⟨fun r hr => ?_, by simp⟩
          simp only [List.head?]
          simpa using hr

theorem mergeHObjPhase_spec (obHeap : List ObjTable) (objRefs : List Nat) (p2 : Bool)
    (out : List ObjTable × Option Nat) (h : mergeHObjPhase obHeap objRefs p2 = Except.ok out) :
    (∀ r, out.2 = some r → objRefs.head? = some r) ∧ out.1.length = obHeap.length := by
  cases p2 with
  | false =>
    simp only [mergeHObjPhase, pure, Except.pure, Except.ok.injEq] at h
    subst h
    exact ⟨fun r hr => by simp at hr, rfl⟩
  | true =>
    cases objRefs with
    | nil =>
      simp only [mergeHObjPhase, pure, Except.pure, Except.ok.injEq] at h
      subst h
      exact ⟨fun r hr => by simp at hr, rfl⟩
    | cons r0 rest =>
      simp only [mergeHObjPhase] at h
      cases h0 : heapGet obHeap r0 with
      | error e =>
        rw [h0, exceptErrBind] at h
        exact absurd h (by simp)
      | ok s0 =>
        rw [h0, exceptOkBind] at h
        cases h1 : heapGets obHeap rest with
        | error e =>
          rw [h1, exceptErrBind] at h
          exact absurd h (by simp)
        | ok others =>
          rw [h1, exceptOkBind] at h
          simp only [pure, Except.pure, Except.ok.injEq] at h
          subst h
          refine ⟨fun r hr => ?_, by simp⟩
          simp only [List.head?]
          simpa using hr

theorem mergeHRenumberLoop_lengths (spHeap : List Spec) (obHeap : List ObjTable)
    (specRefs objRefs : List Nat) (pfx : PyStr) (p1 p2 : Bool)
    (st : List Spec × List ObjTable × Nat)
    (h : mergeHRenumberLoop spHeap obHeap specRefs objRefs pfx p1 p2 = Except.ok st) :
    st.1.length = spHeap.length ∧ st.2.1.length = obHeap.length := by
  refine foldlM_ok_invariant
    (fun s => s.1.length = spHeap.length ∧ s.2.1.length = obHeap.length) _ _ _
    ⟨rfl, rfl⟩ ?_ st h
  intro s index s' hP hstep
  cases hr : heapGet specRefs index with
  | error e => rw [hr, exceptErrBind] at hstep; exact absurd hstep (by simp)
  | ok r =>
    rw [hr, exceptOkBind] at hstep
    cases hro : heapGet objRefs index with
    | error e => rw [hro, exceptErrBind] at hstep; exact absurd hstep (by simp)
    | ok ro =>
      rw [hro, exceptOkBind] at hstep
      cases hs : heapGet s.1 r with
      | error e => rw [hs, exceptErrBind] at hstep; exact absurd hstep (by simp)
      | ok spec =>
        rw [hs, exceptOkBind] at hstep
        cases hm : heapGet s.2.1 ro with
        | error e => rw [hm, exceptErrBind] at hstep; exact absurd hstep (by simp)
        | ok mo =>
          rw [hm, exceptOkBind] at hstep
          cases hren : _renumberReactions s.2.2 spec mo pfx p1 p2 with
          | error e => rw [hren, exceptErrBind] at hstep; exact absurd hstep (by simp)
          | ok trip =>
            rw [hren, exceptOkBind] at hstep
            obtain ⟨sp2, mo2, c2⟩ := trip
            simp only [pure, Except.pure, Except.ok.injEq] at hstep
            subst hstep
            simpa using hP

/-- C9, amended.  Whenever the reference-level merge succeeds and
returns a merged specification (resp. merged entity table), the
returned reference is the *first input's* reference — Python's
`merged_spec = specList[0]` aliases the first input object, which the
merge then mutates in place — and the heaps keep their length, so no
fresh instance is allocated: the merged objects are never distinct from
the first inputs (only from the non-first ones). -/
theorem C9_merge_returns_first_input (spHeap : List Spec) (obHeap : List ObjTable)
    (specRefs objRefs : List Nat) (pfx : PyStr) (p1 p2 : Bool)
    (spHeap2 : List Spec) (obHeap2 : List ObjTable) (rs ro : Option Nat)
    (h : modelMergeH spHeap obHeap specRefs objRefs pfx p1 p2
        = Except.ok (spHeap2, obHeap2, rs, ro)) :
    (∀ r, rs = some r → specRefs.head? = some r)
    ∧ (∀ r, ro = some r → objRefs.head? = some r)
    ∧ spHeap2.length = spHeap.length ∧ obHeap2.length = obHeap.length := by
  unfold modelMergeH at h
  cases hF : mergeHRenumberLoop spHeap obHeap specRefs objRefs pfx p1 p2 with
  | error e => rw [hF, exceptErrBind] at h; exact absurd h (by simp)
  | ok st =>
    rw [hF, exceptOkBind] at h
    obtain ⟨hp1, hp2, cnt⟩ := st
    dsimp only at h
    have hlen := mergeHRenumberLoop_lengths spHeap obHeap specRefs objRefs pfx p1 p2
      (hp1, hp2, cnt) hF
    cases hS : mergeHSpecPhase hp1 specRefs p1 with
    | error e => rw [hS, exceptErrBind] at h; exact absurd h (by simp)
    | ok so =>
      rw [hS, exceptOkBind] at h
      obtain ⟨hp1b, rsb⟩ := so
      dsimp only at h
      have hSs := mergeHSpecPhase_spec hp1 specRefs p1 (hp1b, rsb) hS
      cases hO : mergeHObjPhase hp2 objRefs p2 with
      | error e => rw [hO, exceptErrBind] at h; exact absurd h (by simp)
      | ok oo =>
        rw [hO, exceptOkBind] at h
        obtain ⟨hp2b, rob⟩ := oo
        dsimp only at h
        have hOs := mergeHObjPhase_spec hp2 objRefs p2 (hp2b, rob) hO
        simp only [pure, Except.pure, Except.ok.injEq, Prod.mk.injEq] at h
        obtain ⟨e1, e2, e3, e4⟩ := h
        subst e1; subst e2; subst e3; subst e4
        refine ⟨fun r hr => hSs.1 r hr, fun r hr => hOs.1 r hr, ?_, ?_⟩
        · exact hSs.2.trans hlen.1
        · exact hOs.2.trans hlen.2

/-- Witness for `C9_merge_returns_first_input` at a concrete one-model
input: the merged references both come back as the first input
reference `0` and the heaps keep length 1. -/
theorem C9_merge_returns_first_input_witness :
    ([0] : List Nat).head? = some 0 ∧ ([0] : List Nat).head? = some 0 ∧
      (1 : Nat) = 1 ∧ (1 : Nat) = 1 := by
  have h : modelMergeH [specC9a] [obC9a] [0] [0] (S "w") true true
      = Except.ok
        ([{ Identifiers := [], Objects := [(S "P", S "x")], Initials := [(S "P", S "2")],
            Variables := [], Reactions := [(S "w1", S "P -> Q | 3*P")] }],
         [[(S "P", { name := S "P", description := S "x", value_initial := S "2",
                     influx := [], outflux := [(S "w1", S "3*P")] })]],
         some 0, some 0) := by rfl
  have := C9_merge_returns_first_input [specC9a] [obC9a] [0] [0] (S "w") true true
    _ _ _ _ h
  exact ⟨this.1 0 rfl, this.2.1 0 rfl, this.2.2.1, this.2.2.2⟩

theorem exceptPureBind {α β : Type} (a : α) (f : α → Except PyErr β) :
    ((pure a : Except PyErr α) >>= f) = f a := rfl

theorem stripInline_id (s : PyStr) (h : s.all (fun c => !(c = '#' || c = ';')) = true) :
    ∀ prev, stripInline prev s = s := by
  induction s with
  | nil => intro prev; rfl
  | cons c rest ih =>
    intro prev
    rw [List.all_cons, Bool.and_eq_true] at h
    have hc : (c = '#' || c = ';') = false := by
      cases hcc : (c = '#' || c = ';') <;> simp [hcc] at h ⊢
    simp [stripInline, hc, ih h.2]

theorem pyLStrip_id (c : Char) (rest : PyStr) (h : isPySpace c = false) :
    pyLStrip (c :: rest) = c :: rest := by
  simp [pyLStrip, List.dropWhile_cons, h]

theorem pyRStrip_id (s : PyStr) (h : isPySpace (s.getLastD '!') = false) :
    pyRStrip s = s := by
  cases hs : s.reverse with
  | nil =>
    have : s = [] := by simpa using congrArg List.reverse hs
    simp [this, pyRStrip]
  | cons c rest =>
    have hsrev : s = rest.reverse ++ [c] := by
      have := congrArg List.reverse hs
      simpa using this
    have hlast : s.getLastD '!' = c := by
      rw [hsrev]
      exact List.getLastD_concat _ _ _
    rw [hlast] at h
    rw [pyRStrip, hs, List.dropWhile_cons]
    simp only [h]
    simp [hsrev]

theorem splitAtDelim_none (s : PyStr) (h : s.all (fun c => !(c = '=' || c = ':')) = true) :
    splitAtDelim s = none := by
  induction s with
  | nil => rfl
  | cons c rest ih =>
    rw [List.all_cons, Bool.and_eq_true] at h
    have hc : (c = '=' || c = ':') = false := by
      cases hcc : (c = '=' || c = ':') <;> simp [hcc] at h ⊢
    simp [splitAtDelim, hc, ih h.2]

theorem takeWhile_before_sentinel (sect : PyStr) (h : sect.all (fun c => !(c = ']')) = true) :
    (sect ++ [']']).takeWhile (fun d => !decide (d = ']')) = sect := by
  induction sect with
  | nil => simp [List.takeWhile_cons]
  | cons c rest ih =>
    rw [List.all_cons, Bool.and_eq_true] at h
    have hc : c ≠ ']' := by simpa using h.1
    simp [List.takeWhile_cons, hc, ih h.2]

theorem sectionHeader_some (sect : PyStr) (hne : sect ≠ [])
    (h : sect.all (fun c => !(c = ']')) = true) :
    sectionHeader? (S "[" ++ sect ++ S "]") = some sect := by
  have hshape : S "[" ++ sect ++ S "]" = '[' :: (sect ++ [']']) := by
    simp [S]
  rw [hshape, sectionHeader?]
  simp only [if_pos rfl, decide_not]
  rw [takeWhile_before_sentinel sect h]
  have hcontains : (sect ++ [']']).contains ']' = true := by
    simp [List.elem_eq_mem]
  simp [hne, hcontains]

/-- C7, amended.  `ConfigParser(allow_no_value=True)` accepts a
delimiter-less line inside a stanza as a key bound to no value instead
of raising a parsing error: for any well-formed section header and any
bare key line (non-empty, no delimiter, no comment character, not
space-padded, not starting a new header) the loader returns the section
holding that key bound to `None`. -/
theorem C7_allow_no_value (sect key : PyStr)
    (hsne : sect ≠ [])
    (hschars : sect.all (fun c => !(c = ']' || c = '#' || c = ';')) = true)
    (hkne : key ≠ [])
    (hkchars : key.all (fun c => !(c = '=' || c = ':' || c = '#' || c = ';')) = true)
    (hkhead : isPySpace (key.headD '!') = false)
    (hklast : isPySpace (key.getLastD '!') = false)
    (hkbracket : key.headD '!' ≠ '[') :
    modelspec_read [S "[" ++ sect ++ S "]", key]
      = Except.ok [(sect, [(key, Option.none)])] := by
  obtain ⟨k0, krest⟩ := List.exists_cons_of_ne_nil hkne
  obtain ⟨krest, rfl⟩ := krest
  simp only [List.headD_cons] at hkhead hkbracket
  -- the section line, in cons form
  have hshape : S "[" ++ sect ++ S "]" = '[' :: (sect ++ [']']) := by simp [S]
  -- character facts
  have hsect_each : ∀ c ∈ sect, c ≠ ']' ∧ c ≠ '#' ∧ c ≠ ';' := by
    intro c hc
    rw [List.all_eq_true] at hschars
    have h2 := hschars c hc
    refine ⟨?_, ?_, ?_⟩ <;> intro h3 <;> simp [h3] at h2
  have hkey_each : ∀ c ∈ k0 :: krest, c ≠ '=' ∧ c ≠ ':' ∧ c ≠ '#' ∧ c ≠ ';' := by
    intro c hc
    rw [List.all_eq_true] at hkchars
    have h2 := hkchars c hc
    refine ⟨?_, ?_, ?_, ?_⟩ <;> intro h3 <;> simp [h3] at h2
  -- line 1: stripping is the identity
  have hstrip1 : stripInlineComment ('[' :: (sect ++ [']'])) = '[' :: (sect ++ [']']) := by
    apply stripInline_id
    rw [List.all_eq_true]
    intro c hc
    rcases List.mem_cons.mp hc with rfl | hc2
    · decide
    · rcases List.mem_append.mp hc2 with hc3 | hc3
      · have := hsect_each c hc3
        simp [this.2.1, this.2.2]
      · have : c = ']' := by simpa using hc3
        subst this
        decide
  have hpy1 : pyStrip ('[' :: (sect ++ [']'])) = '[' :: (sect ++ [']']) := by
    rw [pyStrip, pyLStrip_id _ _ (by decide)]
    apply pyRStrip_id
    have : ('[' :: (sect ++ [']'])).getLastD '!' = ']' := by
      have : ('[' :: (sect ++ [']'])) = ('[' :: sect) ++ [']'] := by simp
      rw [this]
      exact List.getLastD_concat _ _ _
    rw [this]
    decide
  -- line 2: stripping is the identity
  have hstrip2 : stripInlineComment (k0 :: krest) = k0 :: krest := by
    apply stripInline_id
    rw [List.all_eq_true]
    intro c hc
    have := hkey_each c hc
    simp [this.2.2.1, this.2.2.2]
  have hpy2 : pyStrip (k0 :: krest) = k0 :: krest := by
    rw [pyStrip, pyLStrip_id _ _ hkhead]
    exact pyRStrip_id _ hklast
  -- section header recognised
  have hsec : sectionHeader? ('[' :: (sect ++ [']'])) = some sect := by
    rw [← hshape]
    exact sectionHeader_some sect hsne (by
      rw [List.all_eq_true]
      intro c hc
      simp [(hsect_each c hc).1])
  -- key line is no section header and has no delimiter
  have hnosec : sectionHeader? (k0 :: krest) = none := by
    rw [sectionHeader?]
    simp [hkbracket]
  have hnodelim : splitAtDelim (k0 :: krest) = none := by
    apply splitAtDelim_none
    rw [List.all_eq_true]
    intro c hc
    have := hkey_each c hc
    simp [this.1, this.2.1]
  -- now run the two lines
  rw [hshape, modelspec_read]
  rw [List.foldlM_cons]
  have hline1 : readLine (Option.none, Option.none, ([] : ConfDict)) ('[' :: (sect ++ [']']))
      = Except.ok (some sect, Option.none, [(sect, [])]) := by
    rw [readLine]
    simp only [hstrip1, hpy1]
    rw [if_neg (by simp)]
    simp only [show isPySpace '[' = false from rfl]
    simp [hsec, dictHas, dictGet, dictSet]
  rw [hline1, exceptOkBind, List.foldlM_cons]
  have hline2 : readLine (some sect, Option.none, ([(sect, [])] : ConfDict)) (k0 :: krest)
      = Except.ok (some sect, some (k0 :: krest), [(sect, [(k0 :: krest, Option.none)])]) := by
    rw [readLine]
    simp only [hstrip2, hpy2]
    rw [if_neg (by simp)]
    simp only [hkhead]
    simp [hnosec, hnodelim, confSetOption, dictGet, dictSet, dictHas]
  rw [hline2, exceptOkBind, List.foldlM_nil]
  rfl

theorem C7_allow_no_value_witness :
    modelspec_read [S "[Objects]", S "foobar"]
      = Except.ok [(S "Objects", [(S "foobar", Option.none)])] := by
  have h := C7_allow_no_value (S "Objects") (S "foobar") (by decide) (by decide)
    (by decide) (by decide) (by decide) (by decide) (by decide)
  exact h

theorem yVecLines_ok (objlist : ObjTable) :
    ∀ objTable : List (PyStr × Nat),
      (∀ p ∈ objTable, dictHas objlist p.1 = true) →
      ∃ ys, yVecLines objlist objTable = Except.ok ys
  | [], _ => ⟨[], rfl⟩
  | p :: rest, h => by
    have hp := h p (List.mem_cons_self _ _)
    rw [dictHas, Option.isSome_iff_exists] at hp
    obtain ⟨obj, hobj⟩ := hp
    obtain ⟨ys, hys⟩ := yVecLines_ok objlist rest
      (fun q hq => h q (List.mem_cons_of_mem _ hq))
    refine ⟨(S "y[" ++ natToStr p.2 ++ S "] = " ++ obj.value_initial ++ S "    # " ++
      p.1 ++ S " : " ++ obj.description) :: ys, ?_⟩
    rw [yVecLines, keyGet, hobj, exceptOkBind, hys, exceptOkBind]
    rfl

theorem solverCode_unknown (odecode : List PyStr) (solver : PyStr)
    (h : solver ∉ supportedSolvers) :
    solverCode odecode solver = sliceList odecode 8 37 := by
  simp only [supportedSolvers, List.mem_cons, not_or] at h
  obtain ⟨h1, h2, h3, h4, h5, h6, h7, h8, h9, h10, h11, -⟩ := h
  rw [solverCode]
  simp [h1, h2, h3, h4, h5, h6, h7, h8, h9, h10, h11]

/-- C6, amended.  An unknown solver name does not abort ODE setup
emission: whenever every slot name resolves in the object table,
`print_Setup` returns `ok` with a script consisting of the bare header
slice `odecode[8:37]` (no solver body is included, since none of the
eleven `if`s fires) followed by the setup lines, whose final line is a
driver invocation of the unknown solver name; the failure is deferred
to the generated script's runtime. -/
theorem C6_unknown_solver_emits (odecode : List PyStr) (objlist : ObjTable)
    (objTable : List (PyStr × Nat)) (solver : PyStr) (timestep endtime : PyStr)
    (lowerbound upperbound : PyStr × PyStr)
    (hsolver : solver ∉ supportedSolvers)
    (hkeys : ∀ p ∈ objTable, dictHas objlist p.1 = true) :
    ∃ rest,
      print_Setup odecode objlist objTable solver timestep endtime lowerbound upperbound
        = Except.ok (sliceList odecode 8 37 ++ rest)
      ∧ rest.getLast? = some (S "model = " ++ solver ++ S "(ODE, 0.0, y, " ++ timestep ++
          S ", " ++ endtime ++ S ", None, lowerbound, upperbound)") := by
  obtain ⟨ys, hys⟩ := yVecLines_ok objlist objTable hkeys
  cases hrest : print_SetupRest objlist objTable solver timestep endtime lowerbound upperbound with
  | error e =>
    rw [print_SetupRest, hys, exceptOkBind] at hrest
    exact absurd hrest (by simp [pure, Except.pure])
  | ok rest0 =>
    refine ⟨rest0, ?_, ?_⟩
    · rw [print_Setup, hrest, exceptOkBind, solverCode_unknown odecode solver hsolver]
      rfl
    · rw [print_SetupRest, hys, exceptOkBind] at hrest
      have h2 := Except.ok.inj hrest
      rw [← h2, List.getLast?_concat]

theorem C6_unknown_solver_emits_witness :
    ∃ rest,
      print_Setup odecodeC6 objlistC6 objTableC6 (S "BAR") (S "2") (S "100")
          (S "0", S "0") (S "1", S "1")
        = Except.ok (sliceList odecodeC6 8 37 ++ rest)
      ∧ rest.getLast? = some (S "model = " ++ S "BAR" ++ S "(ODE, 0.0, y, " ++ S "2" ++
          S ", " ++ S "100" ++ S ", None, lowerbound, upperbound)") :=
  C6_unknown_solver_emits odecodeC6 objlistC6 objTableC6 (S "BAR") (S "2") (S "100")
    (S "0", S "0") (S "1", S "1") (by decide) (by decide)

theorem wsubFuel_no_occur (p rep : PyStr) :
    ∀ (fuel : Nat) (prev : Option Char) (s : PyStr),
      wordOccurs p prev s = false → wsubFuel p rep fuel prev s = s
  | 0, _, s, _ => rfl
  | _ + 1, _, [], _ => rfl
  | fuel + 1, prev, c :: rest, h => by
    rw [wordOccurs, Bool.or_eq_false_iff, Bool.and_eq_false_iff] at h
    have hcond : ¬(p ≠ [] ∧ wsubMatchAt p prev (c :: rest) = true) := by
      rcases h.1 with h1 | h1
      · intro hc
        rw [decide_eq_false_iff_not] at h1
        exact h1 hc.1
      · intro hc
        rw [hc.2] at h1
        simp at h1
    rw [wsubFuel, if_neg hcond, wsubFuel_no_occur p rep fuel (some c) rest h.2]

theorem wordSub_no_occur (p rep s : PyStr) (h : wordOccurs p Option.none s = false) :
    wordSub p rep s = s :=
  wsubFuel_no_occur p rep s.length Option.none s h

theorem substituteAll_no_occur :
    ∀ (objTable : List (PyStr × Nat)) (e : PyStr),
      (∀ kv ∈ objTable, wordOccurs kv.1 Option.none e = false) →
      substituteAll objTable e = e
  | [], _, _ => rfl
  | kv :: rest, e, h => by
    rw [substituteAll, List.foldl_cons,
      wordSub_no_occur kv.1 _ e (h kv (List.mem_cons_self _ _))]
    exact substituteAll_no_occur rest e (fun q hq => h q (List.mem_cons_of_mem _ hq))

theorem map_id_of_eq {α : Type} (f : α → α) :
    ∀ l : List α, (∀ x ∈ l, f x = x) → l.map f = l
  | [], _ => rfl
  | x :: rest, h => by
    rw [List.map_cons, h x (List.mem_cons_self _ _),
      map_id_of_eq f rest (fun y hy => h y (List.mem_cons_of_mem _ hy))]

/-- C4, amended.  For entity names that are ordinary identifiers —
non-empty and made of word characters only, the one shape of name that
`re.sub(r'\b%s\b' % name, ...)` matches literally (a name holding a
regex metacharacter is interpreted as a pattern, and `\b` itself flips
meaning at a non-word edge character, so such names are outside this
claim) — one substitution step replaces only word-boundary occurrences:
whenever no such entity name of the index table has a word-boundary
occurrence in any flux expression — in particular when every name
occurs only as a proper substring of a larger word token, like `A`
inside `AB` — the substitution pass leaves every expression (and hence
the whole object table) unchanged.  The original claim's stronger
promise, that this safety holds *for any substitution order* even
inside already-substituted accessors, is refuted by
`C4_counterexample` (an entity named `y` rewrites earlier accessors). -/
theorem C4_whole_token_only (objlist : ObjTable) (objTable : List (PyStr × Nat))
    ( _hword : ∀ kv ∈ objTable, kv.1 ≠ [] ∧ kv.1.all isWordChar = true)
    (h : ∀ kv ∈ objTable, ∀ p ∈ objlist,
      (∀ q ∈ p.2.influx, wordOccurs kv.1 Option.none q.2 = false) ∧
      (∀ q ∈ p.2.outflux, wordOccurs kv.1 Option.none q.2 = false)) :
    substitute_rateEq objlist objTable = objlist := by
  rw [substitute_rateEq]
  apply map_id_of_eq
  intro p hp
  have hin : p.2.influx.map (fun q => (q.1, substituteAll objTable q.2)) = p.2.influx := by
    apply map_id_of_eq
    intro q hq
    rw [substituteAll_no_occur objTable q.2
      (fun kv hkv => (h kv hkv p hp).1 q hq)]
  have hout : p.2.outflux.map (fun q => (q.1, substituteAll objTable q.2)) = p.2.outflux := by
    apply map_id_of_eq
    intro q hq
    rw [substituteAll_no_occur objTable q.2
      (fun kv hkv => (h kv hkv p hp).2 q hq)]
  rw [hin, hout]

theorem C4_whole_token_only_witness :
    substitute_rateEq
        [(S "AB", { name := S "AB", description := [], value_initial := S "0",
                    influx := [(S "r1", S "AB*2")], outflux := [] })]
        [(S "A", 0)]
      = [(S "AB", { name := S "AB", description := [], value_initial := S "0",
                    influx := [(S "r1", S "AB*2")], outflux := [] })] :=
  C4_whole_token_only _ _ (by decide) (by decide)

theorem pySplitFuel_ne_nil (sep : PyStr) :
    ∀ (fuel : Nat) (acc s : PyStr), pySplitFuel sep fuel acc s ≠ []
  | 0, acc, s => by simp [pySplitFuel]
  | fuel + 1, acc, s => by
    simp only [pySplitFuel]
    by_cases hc : sep ≠ [] ∧ sep.isPrefixOf s
    · rw [if_pos hc]
      simp
    · rw [if_neg hc]
      match s with
      | [] => simp
      | c :: rest => exact pySplitFuel_ne_nil sep fuel (c :: acc) rest

theorem pySplitFuel_singleton (sep : PyStr) :
    ∀ (fuel : Nat) (acc s x : PyStr), s.length ≤ fuel →
      pySplitFuel sep fuel acc s = [x] → x = acc.reverse ++ s
  | 0, acc, s, x, hf, h => by
    have hs : s = [] := List.length_eq_zero.mp (Nat.le_zero.mp hf)
    subst hs
    rw [pySplitFuel] at h
    simp at h
    simp [h]
  | fuel + 1, acc, s, x, hf, h => by
    simp only [pySplitFuel] at h
    by_cases hc : sep ≠ [] ∧ sep.isPrefixOf s
    · rw [if_pos hc] at h
      have := pySplitFuel_ne_nil sep fuel [] (s.drop sep.length)
      cases hrec : pySplitFuel sep fuel [] (s.drop sep.length) with
      | nil => exact absurd hrec this
      | cons a b => rw [hrec] at h; simp at h
    · rw [if_neg hc] at h
      match s, h with
      | [], h => simp at h; simp [h]
      | c :: rest, h =>
        have hx := pySplitFuel_singleton sep fuel (c :: acc) rest x
          (by simpa using Nat.le_of_succ_le_succ hf) h
        rw [hx]
        simp

theorem pySplit_singleton (sep s x : PyStr) (h : pySplit sep s = [x]) : x = s := by
  have := pySplitFuel_singleton sep s.length [] s x (Nat.le_refl _) h
  simpa using this

theorem all_space_of_strip_all_space (t : PyStr)
    (h : ∀ c ∈ pyStrip t, isPySpace c = true) : ∀ c ∈ t, isPySpace c = true := by
  intro c hc
  rw [← List.takeWhile_append_dropWhile isPySpace t] at hc
  rcases List.mem_append.mp hc with hc1 | hc1
  · exact List.mem_takeWhile_imp hc1
  · -- c is in pyLStrip t
    have hc2 : c ∈ (pyLStrip t).reverse := List.mem_reverse.mpr hc1
    rw [← List.takeWhile_append_dropWhile isPySpace (pyLStrip t).reverse] at hc2
    rcases List.mem_append.mp hc2 with hc3 | hc3
    · exact List.mem_takeWhile_imp hc3
    · apply h
      rw [pyStrip, pyRStrip]
      exact List.mem_reverse.mpr hc3

theorem pyStrip_nil_of_all_space (t : PyStr) (h : ∀ c ∈ t, isPySpace c = true) :
    pyStrip t = [] := by
  have h1 : pyLStrip t = [] := List.dropWhile_eq_nil_iff.mpr h
  rw [pyStrip, h1]
  rfl

theorem pySplit_plus_all_space (t : PyStr) (h : ∀ c ∈ t, isPySpace c = true) :
    pySplit (S "+") t = [t] := by
  have haux : ∀ (fuel : Nat) (acc s : PyStr), (∀ c ∈ s, isPySpace c = true) →
      s.length ≤ fuel → pySplitFuel (S "+") fuel acc s = [acc.reverse ++ s] := by
    intro fuel
    induction fuel with
    | zero =>
      intro acc s hs hf
      have : s = [] := List.length_eq_zero.mp (Nat.le_zero.mp hf)
      subst this
      simp [pySplitFuel]
    | succ fuel ih =>
      intro acc s hs hf
      simp only [pySplitFuel]
      match s, hs, hf with
      | [], _, _ =>
        rw [if_neg (by simp [List.isPrefixOf])]
        simp
      | c :: rest, hs, hf =>
        have hcsp := hs c (List.mem_cons_self _ _)
        have hcne : ('+' == c) = false := by
          cases hbe : ('+' == c)
          · rfl
          · have : c = '+' := (beq_iff_eq.mp hbe).symm
            subst this
            simp [isPySpace] at hcsp
        rw [if_neg (by
          intro hcontra
          rw [show S "+" = ['+'] from rfl, List.isPrefixOf] at hcontra
          rw [Bool.and_eq_true] at hcontra
          rw [hcontra.2.1] at hcne
          simp at hcne)]
        have hrec := ih (c :: acc) rest (fun d hd => hs d (List.mem_cons_of_mem _ hd))
          (Nat.le_of_succ_le_succ hf)
        exact hrec.trans (by simp)
  have := haux t.length [] t h (Nat.le_refl _)
  simpa [pySplit] using this

theorem split_strip_empty (t : PyStr)
    (h : (pySplit (S "+") (pyStrip t)).map pyStrip = [[]]) :
    (pySplit (S "+") t).map pyStrip = [[]] := by
  -- extract the singleton
  have hsing : ∃ u, pySplit (S "+") (pyStrip t) = [u] ∧ pyStrip u = [] := by
    cases hX : pySplit (S "+") (pyStrip t) with
    | nil => rw [hX] at h; simp at h
    | cons a b =>
      cases b with
      | nil =>
        rw [hX] at h
        simp at h
        exact ⟨a, rfl, h⟩
      | cons a2 b2 => rw [hX] at h; simp at h
  obtain ⟨u, hu, hustrip⟩ := hsing
  have huval : u = pyStrip t := pySplit_singleton _ _ _ hu
  subst huval
  have hallstrip : ∀ c ∈ pyStrip t, isPySpace c = true := by
    apply all_space_of_strip_all_space
    intro c hc
    rw [hustrip] at hc
    exact absurd hc (List.not_mem_nil c)
  have hallt : ∀ c ∈ t, isPySpace c = true := all_space_of_strip_all_space t hallstrip
  rw [pySplit_plus_all_space t hallt]
  simp [pyStrip_nil_of_all_space t hallt]

theorem updateObj_outflux_proj (nm : PyStr) (f : ModelObject → ModelObject)
    (hf : ∀ o, (f o).outflux = o.outflux) :
    ∀ ol : ObjTable,
      (updateObj ol nm f).map (fun p => (p.1, p.2.outflux))
        = ol.map (fun p => (p.1, p.2.outflux)) := by
  intro ol
  rw [updateObj]
  by_cases hhas : dictHas ol nm = true
  · rw [if_pos hhas]
    rw [List.map_map]
    apply List.map_congr_left
    intro p _
    by_cases hp : p.1 = nm
    · simp [hp, hf]
    · simp [hp]
  · rw [if_neg hhas]

theorem destfold_outflux_proj (ID rateEq : PyStr) :
    ∀ (ds : List PyStr) (ol : ObjTable),
      (ds.foldl
        (fun ol d =>
          if d ≠ [] then
            updateObj ol d (fun o => { o with influx := dictSet o.influx ID rateEq })
          else ol)
        ol).map (fun p => (p.1, p.2.outflux))
      = ol.map (fun p => (p.1, p.2.outflux))
  | [], ol => rfl
  | d :: rest, ol => by
    rw [List.foldl_cons]
    by_cases hd : d ≠ []
    · rw [if_pos hd]
      rw [destfold_outflux_proj ID rateEq rest _]
      exact updateObj_outflux_proj d
        (fun o => { o with influx := dictSet o.influx ID rateEq }) (fun o => rfl) ol
    · rw [if_neg hd]
      exact destfold_outflux_proj ID rateEq rest ol

/-- C5, amended.  For every reaction whose movement text has an empty
side, it is the *network projection* (`processReactions` in
`generator_network.py`) that substitutes the sentinel entity `X` for
that side; the ODE graph builder (`process_reactions_1` /
`load_reactions_1`) instead parses the side as `['']`
(`C5_counterexample`) and skips the empty name, recording no flux for
it (here: an empty source side contributes no outflux to any entity). -/
theorem C5_sentinel_in_network_only (rdata : PyStr) (r : Reaction)
    (hp : parse_reaction_1 rdata = Except.ok r) :
    (r.sources = [[]] →
      ∃ net, processReactions [rdata] = Except.ok [net] ∧ net.1 = [S "X"])
    ∧ (r.destinations = [[]] →
      ∃ net, processReactions [rdata] = Except.ok [net] ∧ net.2 = [S "X"])
    ∧ (∀ (ID : PyStr) (objlist : ObjTable), r.sources = [[]] →
        (load_reactions_1 [(ID, r)] objlist).map (fun p => (p.1, p.2.outflux))
          = objlist.map (fun p => (p.1, p.2.outflux))) := by
  rw [parse_reaction_1] at hp
  cases h1 : (pySplit (S "|") rdata).get? 1 with
  | none =>
    rw [h1] at hp
    exact absurd hp (by simp)
  | some rate1 =>
    rw [h1] at hp
    dsimp only at hp
    cases h2 : (pySplit (S "->") (pyStrip ((pySplit (S "|") rdata).headD []))).get? 1 with
    | none =>
      rw [h2] at hp
      exact absurd hp (by simp)
    | some d1 =>
      rw [h2] at hp
      dsimp only at hp
      have hr : r = Reaction.mk
          ((pySplit (S "+") (pyStrip ((pySplit (S "->")
            (pyStrip ((pySplit (S "|") rdata).headD []))).headD []))).map pyStrip)
          ((pySplit (S "+") (pyStrip d1)).map pyStrip)
          (pyStrip rate1) := (Except.ok.inj hp).symm
      have hnet : processReactions [rdata] = Except.ok
          [(let src := (pySplit (S "+") ((pySplit (S "->")
              (pyStrip ((pySplit (S "|") rdata).headD []))).headD [])).map pyStrip
            let dst := (pySplit (S "+") d1).map pyStrip
            (if src = [[]] then [S "X"] else src, if dst = [[]] then [S "X"] else dst))] := by
        rw [processReactions]
        simp only [List.map_cons, List.map_nil]
        rw [splitArrows, h2]
        rfl
      refine ⟨?_, ?_, ?_⟩
      · intro hsrc
        rw [hr] at hsrc
        dsimp only at hsrc
        have hsrc2 := split_strip_empty _ hsrc
        refine ⟨_, hnet, ?_⟩
        dsimp only
        rw [if_pos hsrc2]
      · intro hdst
        rw [hr] at hdst
        dsimp only at hdst
        have hdst2 := split_strip_empty _ hdst
        refine ⟨_, hnet, ?_⟩
        dsimp only
        rw [if_pos hdst2]
      · intro ID objlist hsrc
        rw [load_reactions_1, List.foldl_cons, List.foldl_nil, hsrc]
        rw [List.foldl_cons, List.foldl_nil]
        rw [if_neg (by simp)]
        exact destfold_outflux_proj ID r.rateEq r.destinations objlist

/-- Witness for `C5_sentinel_in_network_only` at the concrete reaction
`-> P | 0.4` (empty source side). -/
theorem C5_sentinel_in_network_only_witness :
    ∃ net, processReactions [S "-> P | 0.4"] = Except.ok [net] ∧ net.1 = [S "X"] :=
  (C5_sentinel_in_network_only (S "-> P | 0.4")
    { sources := [[]], destinations := [S "P"], rateEq := S "0.4" } (by rfl)).1 rfl

theorem dictSet_fresh {α : Type} (d : List (PyStr × α)) (k : PyStr) (v : α)
    (h : dictHas d k = false) : dictSet d k v = d ++ [(k, v)] := by
  rw [dictSet, h]
  simp

theorem dictHas_append_iff {α : Type} (d e : List (PyStr × α)) (k : PyStr) :
    dictHas (d ++ e) k = (dictHas d k || dictHas e k) := by
  induction d with
  | nil => simp [dictHas, dictGet]
  | cons p rest ih =>
    by_cases hp : p.1 = k
    · simp [dictHas, dictGet, hp]
    · simp only [List.cons_append, dictHas, dictGet, if_neg hp] at ih ⊢
      exact ih

theorem generate_object_list_keys (spec : Spec)
    (h : (spec.Objects.map Prod.fst).Nodup) :
    generate_object_list_1 spec
      = spec.Objects.map (fun p =>
          (p.1, { name := p.1, description := p.2, value_initial := []
                  influx := [], outflux := [] : ModelObject })) := by
  rw [generate_object_list_1]
  suffices haux : ∀ (l : List (PyStr × PyStr)) (acc : List (PyStr × ModelObject)),
      (l.map Prod.fst).Nodup →
      (∀ p ∈ l, dictHas acc p.1 = false) →
      l.foldl (fun objectlist p =>
          dictSet objectlist p.1
            { name := p.1, description := p.2, value_initial := []
              influx := [], outflux := [] }) acc
        = acc ++ l.map (fun p =>
            (p.1, { name := p.1, description := p.2, value_initial := []
                    influx := [], outflux := [] : ModelObject })) by
    have := haux spec.Objects [] h (fun p _ => rfl)
    simpa using this
  intro l
  induction l with
  | nil => intro acc _ _; simp
  | cons p rest ih =>
    intro acc hnd hfresh
    rw [List.foldl_cons, dictSet_fresh _ _ _ (hfresh p (List.mem_cons_self _ _))]
    rw [List.map_cons] at hnd
    have hnd2 := List.nodup_cons.mp hnd
    rw [ih (acc ++ [(p.1, _)]) hnd2.2 ?_]
    · simp
    · intro q hq
      rw [dictHas_append_iff, Bool.or_eq_false_iff]
      refine ⟨hfresh q (List.mem_cons_of_mem _ hq), ?_⟩
      have hqne : q.1 ≠ p.1 := by
        intro he
        exact hnd2.1 (he ▸ List.mem_map_of_mem Prod.fst hq)
      have hpq : ¬p.1 = q.1 := fun he => hqne (Eq.symm he)
      simp [dictHas, dictGet, hpq]

theorem load_initials_keys (spec : Spec) (ol : ObjTable) :
    dictKeys (load_initials_1 spec ol) = dictKeys ol := by
  rw [load_initials_1, dictKeys, dictKeys, List.map_map]
  apply List.map_congr_left
  intro p _
  cases hg : dictGet spec.Initials p.1 <;> simp [Function.comp, hg]

theorem updateObj_keys (ol : ObjTable) (nm : PyStr) (f : ModelObject → ModelObject) :
    dictKeys (updateObj ol nm f) = dictKeys ol := by
  rw [updateObj]
  by_cases hhas : dictHas ol nm = true
  · rw [if_pos hhas, dictKeys, dictKeys, List.map_map]
    apply List.map_congr_left
    intro p _
    by_cases hp : p.1 = nm <;> simp [hp]
  · rw [if_neg hhas]

theorem fluxfold_keys (step : ObjTable → PyStr → ObjTable)
    (hstep : ∀ ol s, dictKeys (step ol s) = dictKeys ol) :
    ∀ (l : List PyStr) (ol : ObjTable), dictKeys (l.foldl step ol) = dictKeys ol
  | [], _ => rfl
  | s :: rest, ol => by
    rw [List.foldl_cons, fluxfold_keys step hstep rest _, hstep]

theorem load_reactions_keys (reactions : List (PyStr × Reaction)) (ol : ObjTable) :
    dictKeys (load_reactions_1 reactions ol) = dictKeys ol := by
  rw [load_reactions_1]
  induction reactions generalizing ol with
  | nil => rfl
  | cons rx rest ih =>
    rw [List.foldl_cons, ih]
    rw [fluxfold_keys _ (fun ol d => by
      by_cases hd : d ≠ []
      · rw [if_pos hd]; exact updateObj_keys ol d _
      · rw [if_neg hd])]
    rw [fluxfold_keys _ (fun ol s => by
      by_cases hs : s ≠ []
      · rw [if_pos hs]; exact updateObj_keys ol s _
      · rw [if_neg hs])]

theorem generate_object_table_eq (ol : ObjTable) (h : (dictKeys ol).Nodup) :
    generate_object_table ol = slotTable 0 (dictKeys ol) := by
  rw [generate_object_table]
  suffices haux : ∀ (l : ObjTable) (acc : List (PyStr × Nat)) (count : Nat),
      (l.map Prod.fst).Nodup →
      (∀ p ∈ l, dictHas acc p.1 = false) →
      (l.foldl (fun ac p => (dictSet ac.1 p.1 ac.2, ac.2 + 1)) (acc, count)).1
        = acc ++ slotTable count (l.map Prod.fst) by
    have := haux ol [] 0 h (fun p _ => rfl)
    simpa [dictKeys] using this
  intro l
  induction l with
  | nil => intro acc count _ _; simp [slotTable]
  | cons p rest ih =>
    intro acc count hnd hfresh
    rw [List.foldl_cons]
    rw [List.map_cons] at hnd
    have hnd2 := List.nodup_cons.mp hnd
    simp only
    rw [dictSet_fresh _ _ _ (hfresh p (List.mem_cons_self _ _))]
    rw [ih (acc ++ [(p.1, count)]) (count + 1) hnd2.2 ?_]
    · rw [List.map_cons, slotTable]
      simp
    · intro q hq
      rw [dictHas_append_iff, Bool.or_eq_false_iff]
      refine ⟨hfresh q (List.mem_cons_of_mem _ hq), ?_⟩
      have hqne : q.1 ≠ p.1 := by
        intro he
        exact hnd2.1 (he ▸ List.mem_map_of_mem Prod.fst hq)
      have hpq : ¬p.1 = q.1 := fun he => hqne (Eq.symm he)
      simp [dictHas, dictGet, hpq]

theorem slotTable_snd : ∀ (names : List PyStr) (c : Nat),
    (slotTable c names).map Prod.snd = (List.range names.length).map (fun i => c + i)
  | [], _ => rfl
  | n :: rest, c => by
    rw [slotTable, List.map_cons, slotTable_snd rest (c + 1)]
    rw [List.length_cons, List.range_succ_eq_map]
    rw [List.map_cons, List.map_map]
    refine congrArg₂ List.cons (by show c = c + 0; omega) ?_
    apply List.map_congr_left
    intro i _
    show c + 1 + i = c + (i + 1)
    omega

/-- C8.  Index assignment after graph building is a pure function of
the specification (running it twice on the same input trivially yields
the same table in this embedding): the table assigns each entity the
slot given by its position in `Objects` declaration order, and the
assigned slots are exactly `[0, N)` — no gaps, no duplicates. -/
theorem C8_index_assignment (Sp : Spec) (reactions : List (PyStr × Reaction)) (ol : ObjTable)
    (hObj : (Sp.Objects.map Prod.fst).Nodup)
    ( _hrs : process_reactions_1 Sp = Except.ok reactions)
    (hol : ol = load_reactions_1 reactions (load_initials_1 Sp (generate_object_list_1 Sp))) :
    generate_object_table ol = slotTable 0 (Sp.Objects.map Prod.fst)
    ∧ (generate_object_table ol).map Prod.snd = List.range Sp.Objects.length
    ∧ ((generate_object_table ol).map Prod.snd).Nodup := by
  have hkeys : dictKeys ol = Sp.Objects.map Prod.fst := by
    rw [hol, load_reactions_keys, load_initials_keys, generate_object_list_keys Sp hObj]
    rw [dictKeys, List.map_map]
    apply List.map_congr_left
    intro p _
    rfl
  have hnd : (dictKeys ol).Nodup := by rw [hkeys]; exact hObj
  have htab := generate_object_table_eq ol hnd
  rw [hkeys] at htab
  have hsnd : (generate_object_table ol).map Prod.snd = List.range Sp.Objects.length := by
    rw [htab, slotTable_snd]
    rw [List.length_map]
    have : ∀ l : List Nat, l.map (fun i => 0 + i) = l := by
      intro l
      apply map_id_of_eq
      intro x _
      omega
    rw [this]
  refine ⟨htab, hsnd, ?_⟩
  rw [hsnd]
  exact List.nodup_range _

/-- Witness for `C8_index_assignment` on the three-entity
specification `specC8`. -/
theorem C8_index_assignment_witness :
    generate_object_table
        (load_reactions_1
          [(S "r1", { sources := [S "U", S "V"], destinations := [S "W"],
                      rateEq := S "k1*U*V" })]
          (load_initials_1 specC8 (generate_object_list_1 specC8)))
      = slotTable 0 (specC8.Objects.map Prod.fst)
    ∧ (generate_object_table
        (load_reactions_1
          [(S "r1", { sources := [S "U", S "V"], destinations := [S "W"],
                      rateEq := S "k1*U*V" })]
          (load_initials_1 specC8 (generate_object_list_1 specC8)))).map Prod.snd
      = List.range specC8.Objects.length
    ∧ ((generate_object_table
        (load_reactions_1
          [(S "r1", { sources := [S "U", S "V"], destinations := [S "W"],
                      rateEq := S "k1*U*V" })]
          (load_initials_1 specC8 (generate_object_list_1 specC8)))).map Prod.snd).Nodup :=
  C8_index_assignment specC8
    [(S "r1", { sources := [S "U", S "V"], destinations := [S "W"], rateEq := S "k1*U*V" })]
    _ (by decide) (by rfl) rfl

theorem digitChar_toNat : ∀ r : Nat, r < 10 → (digitChar r).toNat = 48 + r := by decide

theorem decValue_decDigits : ∀ (fuel n : Nat), n ≤ fuel → decValue (decDigits fuel n) = n
  | 0, 0, _ => rfl
  | 0, _ + 1, h => absurd h (by omega)
  | _ + 1, 0, _ => rfl
  | fuel + 1, n + 1, h => by
    rw [decDigits, decValue, List.foldl_append]
    have hq : (n + 1) / 10 ≤ fuel := by
      have h1 : (n + 1) / 10 < n + 1 := Nat.div_lt_self (Nat.succ_pos n) (by omega)
      omega
    have ih := decValue_decDigits fuel ((n + 1) / 10) hq
    rw [decValue] at ih
    rw [ih, List.foldl_cons, List.foldl_nil]
    have hr : (n + 1) % 10 < 10 := Nat.mod_lt _ (by omega)
    rw [digitChar_toNat _ hr]
    have hdm := Nat.div_add_mod (n + 1) 10
    omega

theorem decValue_natToStr (n : Nat) : decValue (natToStr n) = n := by
  rw [natToStr]
  by_cases h : n = 0
  · rw [if_pos h, h]
    rfl
  · rw [if_neg h]
    exact decValue_decDigits n n (Nat.le_refl n)

theorem natToStr_inj (m n : Nat) (h : natToStr m = natToStr n) : m = n := by
  have := congrArg decValue h
  rwa [decValue_natToStr, decValue_natToStr] at this

theorem pfx_natToStr_inj (pfx : PyStr) (m n : Nat)
    (h : pfx ++ natToStr m = pfx ++ natToStr n) : m = n :=
  natToStr_inj m n (List.append_cancel_left h)

theorem newIDs_mem (pfx : PyStr) :
    ∀ (n c : Nat) (x : PyStr), x ∈ newIDs pfx c n ↔ ∃ i, i < n ∧ x = pfx ++ natToStr (c + i)
  | 0, c, x => by simp [newIDs]
  | n + 1, c, x => by
    rw [newIDs, List.mem_cons, newIDs_mem pfx n (c + 1) x]
    constructor
    · rintro (rfl | ⟨i, hi, rfl⟩)
      · exact ⟨0, by omega, by simp⟩
      · exact ⟨i + 1, by omega, by rw [show c + (i + 1) = c + 1 + i by omega]⟩
    · rintro ⟨i, hi, rfl⟩
      match i with
      | 0 => exact Or.inl (by simp)
      | i + 1 => exact Or.inr ⟨i, by omega, by rw [show c + 1 + i = c + (i + 1) by omega]⟩

theorem newIDs_length (pfx : PyStr) : ∀ (n c : Nat), (newIDs pfx c n).length = n
  | 0, _ => rfl
  | n + 1, c => by rw [newIDs, List.length_cons, newIDs_length pfx n (c + 1)]

theorem newIDs_nodup (pfx : PyStr) : ∀ (n c : Nat), (newIDs pfx c n).Nodup
  | 0, _ => List.nodup_nil
  | n + 1, c => by
    rw [newIDs, List.nodup_cons]
    refine ⟨?_, newIDs_nodup pfx n (c + 1)⟩
    rw [newIDs_mem]
    rintro ⟨i, hi, he⟩
    have := pfx_natToStr_inj pfx c (c + 1 + i) he
    omega

theorem newIDs_append (pfx : PyStr) :
    ∀ (a b c : Nat), newIDs pfx c (a + b) = newIDs pfx c a ++ newIDs pfx (c + a) b
  | 0, b, c => by simp [newIDs]
  | a + 1, b, c => by
    rw [show a + 1 + b = (a + b) + 1 by omega, newIDs, newIDs,
      newIDs_append pfx a b (c + 1), List.cons_append]
    rw [show c + 1 + a = c + (a + 1) by omega]

theorem newIDTable_keys (pfx : PyStr) :
    ∀ (l : List (PyStr × PyStr)) (c : Nat), dictKeys (newIDTable pfx c l) = dictKeys l
  | [], _ => rfl
  | kv :: rest, c => by
    rw [newIDTable, dictKeys, List.map_cons, ← dictKeys, newIDTable_keys pfx rest (c + 1)]
    rfl

theorem newIDTable_values (pfx : PyStr) :
    ∀ (l : List (PyStr × PyStr)) (c : Nat),
      (newIDTable pfx c l).map Prod.snd = newIDs pfx c l.length
  | [], _ => rfl
  | kv :: rest, c => by
    rw [newIDTable, List.map_cons, List.length_cons, newIDs,
      newIDTable_values pfx rest (c + 1)]

theorem dictGet_isSome_of_mem_keys {α : Type} :
    ∀ (d : List (PyStr × α)) (k : PyStr), k ∈ dictKeys d → (dictGet d k).isSome = true
  | [], k, hk => absurd hk (by simp [dictKeys])
  | p :: rest, k, hk => by
    rw [dictGet]
    by_cases hp : p.1 = k
    · rw [if_pos hp]; rfl
    · rw [if_neg hp]
      rcases List.mem_cons.mp hk with he | h2
      · exact absurd he.symm hp
      · exact dictGet_isSome_of_mem_keys rest k h2

theorem dictGet_mem_values {α : Type} :
    ∀ (d : List (PyStr × α)) (k : PyStr) (v : α),
      dictGet d k = some v → v ∈ d.map Prod.snd
  | [], _, _, h => Option.noConfusion h
  | p :: rest, k, v, h => by
    rw [dictGet] at h
    by_cases hp : p.1 = k
    · rw [if_pos hp] at h
      rw [List.map_cons, ← Option.some.inj h]
      exact List.mem_cons_self _ _
    · rw [if_neg hp] at h
      exact List.mem_cons_of_mem _ (dictGet_mem_values rest k v h)

theorem dictGet_value_inj {α : Type} [DecidableEq α] :
    ∀ (d : List (PyStr × α)), (d.map Prod.snd).Nodup →
      ∀ (k1 k2 : PyStr) (v : α), dictGet d k1 = some v → dictGet d k2 = some v → k1 = k2
  | [], _, k1, k2, v, h1, _ => Option.noConfusion h1
  | p :: rest, hnd, k1, k2, v, h1, h2 => by
    rw [List.map_cons, List.nodup_cons] at hnd
    rw [dictGet] at h1 h2
    by_cases hp1 : p.1 = k1
    · rw [if_pos hp1] at h1
      by_cases hp2 : p.1 = k2
      · rw [← hp1, ← hp2]
      · rw [if_neg hp2] at h2
        have := dictGet_mem_values rest k2 v h2
        rw [← Option.some.inj h1] at this
        exact absurd this hnd.1
    · rw [if_neg hp1] at h1
      by_cases hp2 : p.1 = k2
      · rw [if_pos hp2] at h2
        have := dictGet_mem_values rest k1 v h1
        rw [← Option.some.inj h2] at this
        exact absurd this hnd.1
      · rw [if_neg hp2] at h2
        exact dictGet_value_inj rest hnd.2 k1 k2 v h1 h2

theorem newIDTable_get_shape (pfx : PyStr) :
    ∀ (l : List (PyStr × PyStr)) (c : Nat) (k v : PyStr),
      dictGet (newIDTable pfx c l) k = some v → ∃ m, v = pfx ++ natToStr m
  | [], _, k, v, h => Option.noConfusion h
  | kv :: rest, c, k, v, h => by
    rw [newIDTable, dictGet] at h
    by_cases hk : kv.1 = k
    · rw [if_pos hk] at h
      exact ⟨c, (Option.some.inj h).symm⟩
    · rw [if_neg hk] at h
      exact newIDTable_get_shape pfx rest (c + 1) k v h

theorem map_nidOf_newIDTable (pfx : PyStr) :
    ∀ (l : List (PyStr × PyStr)) (c : Nat), (l.map Prod.fst).Nodup →
      (l.map Prod.fst).map (nidOf (newIDTable pfx c l)) = newIDs pfx c l.length
  | [], _, _ => rfl
  | kv :: rest, c, hnd => by
    rw [List.map_cons] at hnd
    have hnd2 := List.nodup_cons.mp hnd
    rw [List.map_cons, List.map_cons, List.length_cons, newIDs]
    have hhead : nidOf (newIDTable pfx c (kv :: rest)) kv.1 = pfx ++ natToStr c := by
      rw [nidOf, newIDTable, dictGet, if_pos rfl]
      rfl
    rw [hhead]
    have htail : (rest.map Prod.fst).map (nidOf (newIDTable pfx c (kv :: rest)))
        = (rest.map Prod.fst).map (nidOf (newIDTable pfx (c + 1) rest)) := by
      apply List.map_congr_left
      intro k hk
      have hkne : ¬kv.1 = k := fun he => hnd2.1 (he ▸ hk)
      rw [nidOf, nidOf, newIDTable, dictGet, if_neg hkne]
    rw [htail, map_nidOf_newIDTable pfx rest (c + 1) hnd2.2]

theorem dictGet_none_of_not_mem {α : Type} :
    ∀ (d : List (PyStr × α)) (k : PyStr), k ∉ d.map Prod.fst → dictGet d k = none
  | [], _, _ => rfl
  | p :: rest, k, h => by
    rw [List.map_cons, List.mem_cons, not_or] at h
    rw [dictGet, if_neg (fun he => h.1 he.symm)]
    exact dictGet_none_of_not_mem rest k h.2

theorem dictDel_append {α : Type} :
    ∀ (d e : List (PyStr × α)) (k : PyStr), dictDel (d ++ e) k = dictDel d k ++ dictDel e k
  | [], _, _ => rfl
  | p :: rest, e, k => by
    rw [List.cons_append, dictDel, dictDel]
    by_cases hp : p.1 = k
    · rw [if_pos hp, if_pos hp, dictDel_append rest e k]
    · rw [if_neg hp, if_neg hp, dictDel_append rest e k, List.cons_append]

theorem dictDel_id_of_not_mem {α : Type} :
    ∀ (d : List (PyStr × α)) (k : PyStr), k ∉ d.map Prod.fst → dictDel d k = d
  | [], _, _ => rfl
  | p :: rest, k, h => by
    rw [List.map_cons, List.mem_cons, not_or] at h
    rw [dictDel, if_neg (fun he => h.1 he.symm), dictDel_id_of_not_mem rest k h.2]

theorem renumberFold (table : List (PyStr × PyStr)) (nid : PyStr → PyStr) :
    ∀ (pending done : List (PyStr × PyStr)),
      (pending.map Prod.fst).Nodup →
      (∀ k ∈ pending.map Prod.fst, keyGet table k = Except.ok (nid k)) →
      (∀ k1 ∈ pending.map Prod.fst, ∀ k2 ∈ pending.map Prod.fst, nid k1 ≠ k2) →
      (∀ k1 ∈ pending.map Prod.fst, ∀ k2 ∈ pending.map Prod.fst, nid k1 = nid k2 → k1 = k2) →
      (∀ k ∈ pending.map Prod.fst, ∀ k2 ∈ done.map Prod.fst, nid k ≠ k2 ∧ k ≠ k2) →
      (pending.map Prod.fst).foldlM (renumberStep table) (pending ++ done)
        = Except.ok (done ++ pending.map (fun p => (nid p.1, p.2)))
  | [], done, _, _, _, _, _ => by simp [pure, Except.pure]
  | (k, v) :: rest, done, hnd, hget, hfresh, hinj, hdone => by
    rw [List.map_cons, List.nodup_cons] at hnd
    rw [List.map_cons, List.foldlM_cons]
    have hkmem : k ∈ ((k, v) :: rest).map Prod.fst := by
      rw [List.map_cons]
      exact List.mem_cons_self _ _
    have hnotmem : (nid k) ∉ (((k, v) :: rest) ++ done).map Prod.fst := by
      rw [List.map_append, List.mem_append, List.map_cons, List.mem_cons, not_or, not_or]
      refine ⟨⟨?_, ?_⟩, ?_⟩
      · exact hfresh k hkmem k hkmem
      · intro hmem
        exact hfresh k hkmem (nid k) (by rw [List.map_cons]; exact List.mem_cons_of_mem _ hmem) rfl
      · intro hmem
        exact (hdone k hkmem (nid k) hmem).1 rfl
    have hknotrest : k ∉ rest.map Prod.fst := hnd.1
    have hknotdone : k ∉ done.map Prod.fst := by
      intro hmem
      exact (hdone k hkmem k hmem).2 rfl
    have hstep : renumberStep table (((k, v) :: rest) ++ done) k
        = Except.ok ((rest ++ done) ++ [(nid k, v)]) := by
      rw [renumberStep, hget k hkmem, exceptOkBind]
      have hv : keyGet (((k, v) :: rest) ++ done) k = Except.ok v := by
        rw [keyGet, List.cons_append, dictGet, if_pos rfl]
      rw [hv, exceptOkBind]
      have hhas : dictHas (((k, v) :: rest) ++ done) (nid k) = false := by
        rw [dictHas, dictGet_none_of_not_mem _ _ hnotmem]
        rfl
      rw [dictSet_fresh _ _ _ hhas]
      rw [dictDel_append,
        dictDel_id_of_not_mem [(nid k, v)] k (by
          rw [List.map_cons, List.mem_cons, not_or]
          refine ⟨?_, by simp⟩
          intro he
          exact hfresh k hkmem k hkmem he.symm),
        dictDel_append,
        show dictDel ((k, v) :: rest) k = dictDel rest k from by
          rw [dictDel, if_pos rfl],
        dictDel_id_of_not_mem rest k hknotrest,
        dictDel_id_of_not_mem done k hknotdone]
      simp [pure, Except.pure]
    rw [hstep, exceptOkBind]
    have hrest := renumberFold table nid rest (done ++ [(nid k, v)]) hnd.2
      (fun k2 hk2 => hget k2 (by rw [List.map_cons]; exact List.mem_cons_of_mem _ hk2))
      (fun k1 hk1 k2 hk2 => hfresh k1 (by rw [List.map_cons]; exact List.mem_cons_of_mem _ hk1)
        k2 (by rw [List.map_cons]; exact List.mem_cons_of_mem _ hk2))
      (fun k1 hk1 k2 hk2 => hinj k1 (by rw [List.map_cons]; exact List.mem_cons_of_mem _ hk1)
        k2 (by rw [List.map_cons]; exact List.mem_cons_of_mem _ hk2))
      (by
        intro k1 hk1 k2 hk2
        have hk1' : k1 ∈ ((k, v) :: rest).map Prod.fst := by
          rw [List.map_cons]
          exact List.mem_cons_of_mem _ hk1
        rw [List.map_append, List.mem_append] at hk2
        rcases hk2 with hk2 | hk2
        · exact hdone k1 hk1' k2 hk2
        · have hk2e : k2 = nid k := by simpa using hk2
          subst hk2e
          constructor
          · intro he
            have := hinj k1 hk1' k hkmem he
            subst this
            exact hnd.1 hk1
          · intro he
            exact hfresh k hkmem k1 hk1' he.symm)
    rw [show ((rest ++ done) ++ [(nid k, v)] : List (PyStr × PyStr))
      = rest ++ (done ++ [(nid k, v)]) from by simp]
    rw [hrest]
    simp

theorem isPrefixOf_false_ne (pfx : PyStr) :
    ∀ (k : PyStr), pfx.isPrefixOf k = false → ∀ t, pfx ++ t ≠ k := by
  induction pfx with
  | nil => intro k h t; simp [List.isPrefixOf] at h
  | cons a as ih =>
    intro k h t he
    match k, he with
    | _, rfl =>
      rw [List.cons_append] at h
      rw [show ((a :: as).isPrefixOf (a :: (as ++ t)))
        = ((a == a) && as.isPrefixOf (as ++ t)) from rfl] at h
      simp only [beq_self_eq_true, Bool.true_and] at h
      exact ih (as ++ t) h t rfl

theorem keyGet_eq_nidOf (d : List (PyStr × PyStr)) (k : PyStr)
    (h : (dictGet d k).isSome = true) : keyGet d k = Except.ok (nidOf d k) := by
  rw [keyGet, nidOf]
  cases hg : dictGet d k with
  | none => rw [hg] at h; simp at h
  | some v => rfl

theorem stepOneFold (pfx : PyStr) :
    ∀ (l acc : List (PyStr × PyStr)) (count : Nat),
      (l.map Prod.fst).Nodup →
      (∀ kv ∈ l, dictHas acc kv.1 = false) →
      l.foldl (fun (a : List (PyStr × PyStr) × Nat) kv =>
          (dictSet a.1 kv.1 (pfx ++ natToStr a.2), a.2 + 1)) (acc, count)
        = (acc ++ newIDTable pfx count l, count + l.length)
  | [], acc, count, _, _ => by simp [newIDTable]
  | kv :: rest, acc, count, hnd, hfresh => by
    rw [List.foldl_cons]
    rw [List.map_cons] at hnd
    have hnd2 := List.nodup_cons.mp hnd
    simp only
    rw [dictSet_fresh _ _ _ (hfresh kv (List.mem_cons_self _ _))]
    rw [stepOneFold pfx rest (acc ++ [(kv.1, pfx ++ natToStr count)]) (count + 1) hnd2.2 ?_]
    · rw [newIDTable, List.length_cons]
      rw [Prod.mk.injEq]
      constructor
      · simp
      · omega
    · intro q hq
      rw [dictHas_append_iff, Bool.or_eq_false_iff]
      refine ⟨hfresh q (List.mem_cons_of_mem _ hq), ?_⟩
      have hqne : ¬kv.1 = q.1 := by
        intro he
        exact hnd2.1 (he ▸ List.mem_map_of_mem Prod.fst hq)
      simp [dictHas, dictGet, hqne]

theorem renumberFluxes_some (tbl : List (PyStr × PyStr)) (flux : List (PyStr × PyStr)) :
    renumberFluxes (some tbl) flux = (dictKeys flux).foldlM (renumberStep tbl) flux := rfl

theorem nid_props (pfx : PyStr) (l : List (PyStr × PyStr)) (c : Nat)
    ( _hnd : (l.map Prod.fst).Nodup)
    (hfresh0 : ∀ k ∈ l.map Prod.fst, pfx.isPrefixOf k = false) :
    (∀ k ∈ l.map Prod.fst, keyGet (newIDTable pfx c l) k
        = Except.ok (nidOf (newIDTable pfx c l) k))
    ∧ (∀ k1 ∈ l.map Prod.fst, ∀ k2 ∈ l.map Prod.fst, nidOf (newIDTable pfx c l) k1 ≠ k2)
    ∧ (∀ k1 ∈ l.map Prod.fst, ∀ k2 ∈ l.map Prod.fst,
        nidOf (newIDTable pfx c l) k1 = nidOf (newIDTable pfx c l) k2 → k1 = k2) := by
  have hmem : ∀ k ∈ l.map Prod.fst, (dictGet (newIDTable pfx c l) k).isSome = true := by
    intro k hk
    apply dictGet_isSome_of_mem_keys
    rw [show dictKeys (newIDTable pfx c l) = dictKeys l from newIDTable_keys pfx l c]
    exact hk
  have hshape : ∀ k ∈ l.map Prod.fst, ∃ m, nidOf (newIDTable pfx c l) k = pfx ++ natToStr m := by
    intro k hk
    have h1 := hmem k hk
    rw [Option.isSome_iff_exists] at h1
    obtain ⟨v, hv⟩ := h1
    obtain ⟨m, hm⟩ := newIDTable_get_shape pfx l c k v hv
    exact ⟨m, by rw [nidOf, hv, Option.getD_some, hm]⟩
  refine ⟨fun k hk => keyGet_eq_nidOf _ k (hmem k hk), ?_, ?_⟩
  · intro k1 hk1 k2 hk2 he
    obtain ⟨m, hm⟩ := hshape k1 hk1
    rw [hm] at he
    exact isPrefixOf_false_ne pfx k2 (hfresh0 k2 hk2) (natToStr m) he
  · intro k1 hk1 k2 hk2 he
    have h1 := hmem k1 hk1
    have h2 := hmem k2 hk2
    rw [Option.isSome_iff_exists] at h1 h2
    obtain ⟨v1, hv1⟩ := h1
    obtain ⟨v2, hv2⟩ := h2
    rw [nidOf, hv1, Option.getD_some, nidOf, hv2, Option.getD_some] at he
    subst he
    have hvnd : ((newIDTable pfx c l).map Prod.snd).Nodup := by
      rw [newIDTable_values]
      exact newIDs_nodup pfx l.length c
    exact dictGet_value_inj (newIDTable pfx c l) hvnd k1 k2 v1 hv1 hv2

theorem renumberFluxes_some_ok (tbl flux : List (PyStr × PyStr))
    (hnd : (flux.map Prod.fst).Nodup)
    (hget : ∀ k ∈ flux.map Prod.fst, keyGet tbl k = Except.ok (nidOf tbl k))
    (hfresh : ∀ k1 ∈ flux.map Prod.fst, ∀ k2 ∈ flux.map Prod.fst, nidOf tbl k1 ≠ k2)
    (hinj : ∀ k1 ∈ flux.map Prod.fst, ∀ k2 ∈ flux.map Prod.fst,
      nidOf tbl k1 = nidOf tbl k2 → k1 = k2) :
    renumberFluxes (some tbl) flux
      = Except.ok (flux.map (fun q => (nidOf tbl q.1, q.2))) := by
  rw [renumberFluxes_some]
  have h := renumberFold tbl (nidOf tbl) flux [] hnd hget hfresh hinj
    (by intro k _ k2 hk2; simp at hk2)
  rw [List.append_nil] at h
  rw [dictKeys]
  rw [h]
  simp

theorem renumberObjs_some_ok (tbl : List (PyStr × PyStr))
    (hget : ∀ k ∈ dictKeys tbl, keyGet tbl k = Except.ok (nidOf tbl k))
    (hfresh : ∀ k1 ∈ dictKeys tbl, ∀ k2 ∈ dictKeys tbl, nidOf tbl k1 ≠ k2)
    (hinj : ∀ k1 ∈ dictKeys tbl, ∀ k2 ∈ dictKeys tbl,
      nidOf tbl k1 = nidOf tbl k2 → k1 = k2) :
    ∀ mo : ObjTable,
      (∀ p ∈ mo, (∀ q ∈ p.2.influx, q.1 ∈ dictKeys tbl)
          ∧ (∀ q ∈ p.2.outflux, q.1 ∈ dictKeys tbl)) →
      (∀ p ∈ mo, (p.2.influx.map Prod.fst).Nodup ∧ (p.2.outflux.map Prod.fst).Nodup) →
      renumberObjs (some tbl) mo = Except.ok
        (mo.map (fun p => (p.1, { p.2 with
          influx := p.2.influx.map (fun q => (nidOf tbl q.1, q.2)),
          outflux := p.2.outflux.map (fun q => (nidOf tbl q.1, q.2)) })))
  | [], _, _ => rfl
  | p :: rest, hflux, hfluxnd => by
    have hp := hflux p (List.mem_cons_self _ _)
    have hpnd := hfluxnd p (List.mem_cons_self _ _)
    have hinflux := renumberFluxes_some_ok tbl p.2.influx hpnd.1
      (fun k hk => hget k (by
        obtain ⟨q, hq, he⟩ := List.mem_map.mp hk
        exact he ▸ hp.1 q hq))
      (fun k1 hk1 k2 hk2 => hfresh k1 (by
        obtain ⟨q, hq, he⟩ := List.mem_map.mp hk1
        exact he ▸ hp.1 q hq) k2 (by
        obtain ⟨q, hq, he⟩ := List.mem_map.mp hk2
        exact he ▸ hp.1 q hq))
      (fun k1 hk1 k2 hk2 => hinj k1 (by
        obtain ⟨q, hq, he⟩ := List.mem_map.mp hk1
        exact he ▸ hp.1 q hq) k2 (by
        obtain ⟨q, hq, he⟩ := List.mem_map.mp hk2
        exact he ▸ hp.1 q hq))
    have houtflux := renumberFluxes_some_ok tbl p.2.outflux hpnd.2
      (fun k hk => hget k (by
        obtain ⟨q, hq, he⟩ := List.mem_map.mp hk
        exact he ▸ hp.2 q hq))
      (fun k1 hk1 k2 hk2 => hfresh k1 (by
        obtain ⟨q, hq, he⟩ := List.mem_map.mp hk1
        exact he ▸ hp.2 q hq) k2 (by
        obtain ⟨q, hq, he⟩ := List.mem_map.mp hk2
        exact he ▸ hp.2 q hq))
      (fun k1 hk1 k2 hk2 => hinj k1 (by
        obtain ⟨q, hq, he⟩ := List.mem_map.mp hk1
        exact he ▸ hp.2 q hq) k2 (by
        obtain ⟨q, hq, he⟩ := List.mem_map.mp hk2
        exact he ▸ hp.2 q hq))
    have hrest := renumberObjs_some_ok tbl hget hfresh hinj rest
      (fun q hq => hflux q (List.mem_cons_of_mem _ hq))
      (fun q hq => hfluxnd q (List.mem_cons_of_mem _ hq))
    rw [renumberObjs, hinflux, exceptOkBind, houtflux, exceptOkBind, hrest, exceptOkBind]
    rfl

theorem _renumberReactions_ok (c : Nat) (sp : Spec) (mo : ObjTable) (pfx : PyStr)
    (hnd : (sp.Reactions.map Prod.fst).Nodup)
    (hfresh0 : ∀ k ∈ sp.Reactions.map Prod.fst, pfx.isPrefixOf k = false)
    (hflux : ∀ p ∈ mo, (∀ q ∈ p.2.influx, q.1 ∈ sp.Reactions.map Prod.fst)
        ∧ (∀ q ∈ p.2.outflux, q.1 ∈ sp.Reactions.map Prod.fst))
    (hfluxnd : ∀ p ∈ mo, (p.2.influx.map Prod.fst).Nodup ∧ (p.2.outflux.map Prod.fst).Nodup) :
    _renumberReactions c sp mo pfx true true = Except.ok
      (renameSpecWith (newIDTable pfx c sp.Reactions) sp,
       renameObjWith (newIDTable pfx c sp.Reactions) mo,
       c + sp.Reactions.length) := by
  have h1 := stepOneFold pfx sp.Reactions [] c hnd (fun kv _ => rfl)
  rw [List.nil_append] at h1
  obtain ⟨hget, hfresh, hinj⟩ := nid_props pfx sp.Reactions c hnd hfresh0
  have hkeys := newIDTable_keys pfx sp.Reactions c
  have h2 := renumberFold (newIDTable pfx c sp.Reactions)
    (nidOf (newIDTable pfx c sp.Reactions)) sp.Reactions [] hnd hget hfresh hinj
    (by intro k _ k2 hk2; simp at hk2)
  rw [List.append_nil] at h2
  have h3 := renumberObjs_some_ok (newIDTable pfx c sp.Reactions)
    (by rw [hkeys]; exact hget) (by rw [hkeys]; exact hfresh) (by rw [hkeys]; exact hinj)
    mo (by rw [hkeys]; exact hflux) hfluxnd
  rw [_renumberReactions]
  rw [if_pos rfl]
  rw [h1]
  dsimp only
  rw [dictKeys]
  rw [List.nil_append] at h2
  rw [h2, exceptOkBind, exceptPureBind]
  rw [if_pos rfl]
  rw [h3, exceptOkBind]
  rfl

theorem renameReactionsAux_ok (pfx : PyStr) :
    ∀ (specs : List Spec) (mos : List ObjTable) (count : Nat),
      specs.length = mos.length →
      (∀ pr ∈ specs.zip mos,
        (pr.1.Reactions.map Prod.fst).Nodup
        ∧ (∀ k ∈ pr.1.Reactions.map Prod.fst, pfx.isPrefixOf k = false)
        ∧ (∀ p ∈ pr.2, (∀ q ∈ p.2.influx, q.1 ∈ pr.1.Reactions.map Prod.fst)
            ∧ (∀ q ∈ p.2.outflux, q.1 ∈ pr.1.Reactions.map Prod.fst))
        ∧ (∀ p ∈ pr.2, (p.2.influx.map Prod.fst).Nodup ∧ (p.2.outflux.map Prod.fst).Nodup)) →
      renameReactionsAux pfx true true count specs mos
        = Except.ok (renameListExpected pfx count specs mos)
  | [], [], count, _, _ => rfl
  | [], mo :: mos, count, hlen, _ => by simp at hlen
  | s :: ss, [], count, hlen, _ => by simp at hlen
  | s :: ss, mo :: mos, count, hlen, hpairs => by
    have hp := hpairs (s, mo) (by rw [List.zip_cons_cons]; exact List.mem_cons_self _ _)
    have hstep := _renumberReactions_ok count s mo pfx hp.1 hp.2.1 hp.2.2.1 hp.2.2.2
    have hrec := renameReactionsAux_ok pfx ss mos (count + s.Reactions.length)
      (by simpa using hlen)
      (fun pr hpr => hpairs pr (by rw [List.zip_cons_cons]; exact List.mem_cons_of_mem _ hpr))
    rw [renameReactionsAux, hstep, exceptOkBind]
    dsimp only
    rw [hrec, exceptOkBind]
    rw [renameListExpected]
    rfl

theorem renameSpecWith_keys (pfx : PyStr) (c : Nat) (sp : Spec)
    (hnd : (sp.Reactions.map Prod.fst).Nodup) :
    (renameSpecWith (newIDTable pfx c sp.Reactions) sp).Reactions.map Prod.fst
      = newIDs pfx c sp.Reactions.length := by
  rw [renameSpecWith]
  dsimp only
  rw [List.map_map]
  rw [show (Prod.fst ∘ fun p : PyStr × PyStr =>
      (nidOf (newIDTable pfx c sp.Reactions) p.1, p.2))
    = (nidOf (newIDTable pfx c sp.Reactions)) ∘ Prod.fst from rfl]
  rw [← List.map_map]
  exact map_nidOf_newIDTable pfx sp.Reactions c hnd

theorem renameExpected_flat_keys (pfx : PyStr) :
    ∀ (specs : List Spec) (mos : List ObjTable) (count : Nat),
      specs.length = mos.length →
      (∀ pr ∈ specs.zip mos, (pr.1.Reactions.map Prod.fst).Nodup) →
      ((renameListExpected pfx count specs mos).1.map
          (fun s => s.Reactions.map Prod.fst)).flatten
        = newIDs pfx count ((specs.map (fun s => s.Reactions.length)).sum)
  | [], [], count, _, _ => rfl
  | [], mo :: mos, count, hlen, _ => by simp at hlen
  | s :: ss, [], count, hlen, _ => by simp at hlen
  | s :: ss, mo :: mos, count, hlen, hnd => by
    rw [renameListExpected]
    dsimp only
    rw [List.map_cons, List.flatten_cons]
    rw [renameSpecWith_keys pfx count s
      (hnd (s, mo) (by rw [List.zip_cons_cons]; exact List.mem_cons_self _ _))]
    rw [renameExpected_flat_keys pfx ss mos (count + s.Reactions.length)
      (by simpa using hlen)
      (fun pr hpr => hnd pr (by rw [List.zip_cons_cons]; exact List.mem_cons_of_mem _ hpr))]
    rw [List.map_cons, List.sum_cons]
    rw [← newIDs_append pfx s.Reactions.length _ count]

theorem foldl_dictSet_append {α : Type} :
    ∀ (l d : List (PyStr × α)),
      (∀ kv ∈ l, dictHas d kv.1 = false) →
      (l.map Prod.fst).Nodup →
      l.foldl (fun dd (kv : PyStr × α) => dictSet dd kv.1 kv.2) d = d ++ l
  | [], d, _, _ => by simp
  | kv :: rest, d, hdisj, hnd => by
    rw [List.map_cons, List.nodup_cons] at hnd
    rw [List.foldl_cons, dictSet_fresh _ _ _ (hdisj kv (List.mem_cons_self _ _))]
    rw [foldl_dictSet_append rest (d ++ [kv]) ?_ hnd.2]
    · simp
    · intro q hq
      rw [dictHas_append_iff, Bool.or_eq_false_iff]
      refine ⟨hdisj q (List.mem_cons_of_mem _ hq), ?_⟩
      have hqne : ¬kv.1 = q.1 := by
        intro he
        exact hnd.1 (he ▸ List.mem_map_of_mem Prod.fst hq)
      rw [show (kv :: []) = [kv] from rfl]
      simp [dictHas, dictGet, hqne]

theorem dictHas_false_of_not_mem {α : Type} (d : List (PyStr × α)) (k : PyStr)
    (h : k ∉ d.map Prod.fst) : dictHas d k = false := by
  rw [dictHas, dictGet_none_of_not_mem d k h]
  rfl

theorem mergeSpec_nil (s0 : Spec) : mergeSpecification s0 [] = s0 := rfl

theorem mergeSpec_cons (s0 s : Spec) (rest : List Spec) :
    mergeSpecification s0 (s :: rest) = mergeSpecification (mergeStep s0 s) rest := rfl

theorem mergeStep_reactions (s0 s : Spec)
    (hnd : ((s0.Reactions.map Prod.fst) ++ (s.Reactions.map Prod.fst)).Nodup) :
    (mergeStep s0 s).Reactions = s0.Reactions ++ s.Reactions := by
  have hdisj := (List.nodup_append.mp hnd).2.2
  show s.Reactions.foldl (fun d kv => dictSet d kv.1 kv.2) s0.Reactions
      = s0.Reactions ++ s.Reactions
  apply foldl_dictSet_append
  · intro q hq
    apply dictHas_false_of_not_mem
    intro hmem
    exact hdisj hmem (List.mem_map_of_mem Prod.fst hq)
  · exact (List.nodup_append.mp hnd).2.1

theorem mergeSpec_reactions_keys :
    ∀ (rest : List Spec) (s0 : Spec),
      ((s0.Reactions.map Prod.fst)
        ++ (rest.map (fun s => s.Reactions.map Prod.fst)).flatten).Nodup →
      (mergeSpecification s0 rest).Reactions.map Prod.fst
        = s0.Reactions.map Prod.fst
          ++ (rest.map (fun s => s.Reactions.map Prod.fst)).flatten
  | [], s0, _ => by simp [mergeSpec_nil]
  | s :: rest, s0, hnd => by
    rw [List.map_cons, List.flatten_cons] at hnd ⊢
    have hnd' : (((s0.Reactions.map Prod.fst) ++ (s.Reactions.map Prod.fst))
        ++ (rest.map (fun s => s.Reactions.map Prod.fst)).flatten).Nodup := by
      rw [List.append_assoc]; exact hnd
    have hnds := List.Nodup.sublist (List.sublist_append_left _ _) hnd'
    have hkeys := mergeStep_reactions s0 s hnds
    rw [mergeSpec_cons]
    have hrec := mergeSpec_reactions_keys rest (mergeStep s0 s) ?_
    · rw [hrec, hkeys, List.map_append, List.append_assoc]
    · rw [hkeys, List.map_append]
      exact hnd'

/-- C2.  Renumbering during a merge walks the specifications in order
and hands each reaction the id `pfx ++ str(counter)` with the counter
starting at 1 and never resetting across specifications: the renaming
phase succeeds, the concatenated renamed reaction ids are exactly
`newIDs pfx 1 total`, those ids are pairwise distinct, none of them is
an original reaction id, and the merged specification carries exactly
that id list. -/
theorem C2_renumbering_monotone (pfx : PyStr)
    (specs : List Spec) (mos : List ObjTable)
    (hlen : specs.length = mos.length)
    (hpairs : ∀ pr ∈ specs.zip mos,
      (pr.1.Reactions.map Prod.fst).Nodup
      ∧ (∀ k ∈ pr.1.Reactions.map Prod.fst, pfx.isPrefixOf k = false)
      ∧ (∀ p ∈ pr.2, (∀ q ∈ p.2.influx, q.1 ∈ pr.1.Reactions.map Prod.fst)
          ∧ (∀ q ∈ p.2.outflux, q.1 ∈ pr.1.Reactions.map Prod.fst))
      ∧ (∀ p ∈ pr.2, (p.2.influx.map Prod.fst).Nodup ∧ (p.2.outflux.map Prod.fst).Nodup)) :
    renameReactions specs mos pfx true true
      = Except.ok ((renameListExpected pfx 1 specs mos).1,
                   (renameListExpected pfx 1 specs mos).2.1)
    ∧ ((renameListExpected pfx 1 specs mos).1.map
        (fun s => s.Reactions.map Prod.fst)).flatten
      = newIDs pfx 1 ((specs.map (fun s => s.Reactions.length)).sum)
    ∧ (newIDs pfx 1 ((specs.map (fun s => s.Reactions.length)).sum)).Nodup
    ∧ (∀ k ∈ newIDs pfx 1 ((specs.map (fun s => s.Reactions.length)).sum),
        ∀ pr ∈ specs.zip mos, k ∉ pr.1.Reactions.map Prod.fst)
    ∧ (∀ s0 rest, (renameListExpected pfx 1 specs mos).1 = s0 :: rest →
        (mergeSpecification s0 rest).Reactions.map Prod.fst
          = newIDs pfx 1 ((specs.map (fun s => s.Reactions.length)).sum)) := by
  have haux := renameReactionsAux_ok pfx specs mos 1 hlen hpairs
  have hflat := renameExpected_flat_keys pfx specs mos 1 hlen
    (fun pr hpr => (hpairs pr hpr).1)
  refine ⟨?_, hflat, newIDs_nodup pfx _ 1, ?_, ?_⟩
  · rw [renameReactions, haux]
    rfl
  · intro k hk pr hpr hmem
    obtain ⟨i, _, rfl⟩ := (newIDs_mem pfx _ 1 k).mp hk
    exact isPrefixOf_false_ne pfx _ ((hpairs pr hpr).2.1 _ hmem) (natToStr (1 + i)) rfl
  · intro s0 rest he
    rw [he, List.map_cons, List.flatten_cons] at hflat
    rw [mergeSpec_reactions_keys rest s0 (by rw [hflat]; exact newIDs_nodup pfx _ 1)]
    exact hflat

theorem C2_renumbering_monotone_witness :
    ([specC2a, specC2b].length = [obC2a, obC2b].length
      ∧ newIDs (S "exp") 1 (([specC2a, specC2b].map (fun s => s.Reactions.length)).sum)
          = [S "exp1", S "exp2"])
    ∧ (renameReactions [specC2a, specC2b] [obC2a, obC2b] (S "exp") true true
        = Except.ok ((renameListExpected (S "exp") 1 [specC2a, specC2b] [obC2a, obC2b]).1,
                     (renameListExpected (S "exp") 1 [specC2a, specC2b] [obC2a, obC2b]).2.1)
      ∧ ((renameListExpected (S "exp") 1 [specC2a, specC2b] [obC2a, obC2b]).1.map
          (fun s => s.Reactions.map Prod.fst)).flatten
        = newIDs (S "exp") 1 (([specC2a, specC2b].map (fun s => s.Reactions.length)).sum)
      ∧ (newIDs (S "exp") 1
          (([specC2a, specC2b].map (fun s => s.Reactions.length)).sum)).Nodup
      ∧ (∀ k ∈ newIDs (S "exp") 1
            (([specC2a, specC2b].map (fun s => s.Reactions.length)).sum),
          ∀ pr ∈ [specC2a, specC2b].zip [obC2a, obC2b],
            k ∉ pr.1.Reactions.map Prod.fst)
      ∧ (∀ s0 rest,
          (renameListExpected (S "exp") 1 [specC2a, specC2b] [obC2a, obC2b]).1
            = s0 :: rest →
          (mergeSpecification s0 rest).Reactions.map Prod.fst
            = newIDs (S "exp") 1
                (([specC2a, specC2b].map (fun s => s.Reactions.length)).sum))) :=
  ⟨⟨rfl, by decide⟩,
   C2_renumbering_monotone (S "exp") [specC2a, specC2b] [obC2a, obC2b] rfl (by decide)⟩

theorem pys_contains_of_mem {l : List PyStr} {a : PyStr} (h : a ∈ l) :
    l.contains a = true :=
  List.elem_eq_true_of_mem h

theorem dictSet_same {α : Type} :
    ∀ (d : List (PyStr × α)) (k : PyStr) (v : α),
      (d.map Prod.fst).Nodup → dictGet d k = some v → dictSet d k v = d
  | [], _, _, _, hg => by rw [dictGet] at hg; exact Option.noConfusion hg
  | p :: rest, k, v, hnd, hg => by
    rw [List.map_cons, List.nodup_cons] at hnd
    have hhas : dictHas (p :: rest) k = true := by rw [dictHas, hg]; rfl
    rw [dictSet, if_pos hhas, List.map_cons]
    by_cases hk : p.1 = k
    · rw [dictGet, if_pos hk] at hg
      have hv : p.2 = v := Option.some.inj hg
      rw [if_pos hk, ← hk, ← hv]
      rw [map_id_of_eq]
      intro q hq
      have hne : ¬q.1 = p.1 := by
        intro he
        exact hnd.1 (he ▸ List.mem_map_of_mem Prod.fst hq)
      rw [if_neg hne]
    · rw [dictGet, if_neg hk] at hg
      rw [if_neg hk]
      have hih := dictSet_same rest k v hnd.2 hg
      rw [dictSet, if_pos (by rw [dictHas, hg]; rfl)] at hih
      rw [hih]

theorem foldl_suppress (c : List PyStr) :
    ∀ (l fl : List (PyStr × PyStr)),
      (∀ kv ∈ l, c.contains kv.2 = true) →
      l.foldl (fun fl kv => if c.contains kv.2 then fl else dictSet fl kv.1 kv.2) fl = fl
  | [], _, _ => rfl
  | kv :: rest, fl, h => by
    rw [List.foldl_cons, if_pos (h kv (List.mem_cons_self _ _))]
    exact foldl_suppress c rest fl (fun q hq => h q (List.mem_cons_of_mem _ hq))

theorem mergeOneObject_self (m : ObjTable) (nm : PyStr) (nobj cobj : ModelObject)
    (hget : dictGet m nm = some cobj)
    (hin : ∀ q ∈ nobj.influx, (cobj.influx.map Prod.snd).contains q.2 = true)
    (hout : ∀ q ∈ nobj.outflux, (cobj.outflux.map Prod.snd).contains q.2 = true)
    (hnd : (m.map Prod.fst).Nodup) :
    mergeOneObject m nm nobj = m := by
  rw [mergeOneObject, hget]
  dsimp only
  rw [foldl_suppress _ _ _ hin, foldl_suppress _ _ _ hout]
  exact dictSet_same m nm cobj hnd hget

theorem mergeFold_id :
    ∀ (l : List (PyStr × ModelObject)) (m : ObjTable),
      (m.map Prod.fst).Nodup →
      (∀ p ∈ l, ∃ cobj, dictGet m p.1 = some cobj
        ∧ (∀ q ∈ p.2.influx, (cobj.influx.map Prod.snd).contains q.2 = true)
        ∧ (∀ q ∈ p.2.outflux, (cobj.outflux.map Prod.snd).contains q.2 = true)) →
      l.foldl (fun acc p => mergeOneObject acc p.1 p.2) m = m
  | [], _, _, _ => rfl
  | p :: rest, m, hnd, h => by
    obtain ⟨cobj, hget, hin, hout⟩ := h p (List.mem_cons_self _ _)
    rw [List.foldl_cons, mergeOneObject_self m p.1 p.2 cobj hget hin hout hnd]
    exact mergeFold_id rest m hnd (fun q hq => h q (List.mem_cons_of_mem _ hq))

theorem dictGet_map_keyfix {α β : Type} (g : PyStr × α → β) :
    ∀ (d : List (PyStr × α)) (k : PyStr) (v : α),
      (d.map Prod.fst).Nodup → (k, v) ∈ d →
      dictGet (d.map (fun p => (p.1, g p))) k = some (g (k, v))
  | [], _, _, _, hm => absurd hm (List.not_mem_nil _)
  | p :: rest, k, v, hnd, hm => by
    rw [List.map_cons, List.nodup_cons] at hnd
    rw [List.map_cons, dictGet]
    dsimp only
    rcases List.mem_cons.mp hm with he | hm
    · cases he.symm
      rw [if_pos rfl]
    · have hne : ¬p.1 = k := by
        intro he
        exact hnd.1 (he ▸ List.mem_map_of_mem Prod.fst hm)
      rw [if_neg hne]
      exact dictGet_map_keyfix g rest k v hnd.2 hm

theorem renameObjWith_keys (tbl : List (PyStr × PyStr)) (T : ObjTable) :
    (renameObjWith tbl T).map Prod.fst = T.map Prod.fst := by
  rw [renameObjWith, List.map_map]
  rfl

theorem mergeRenamed_id (tbl1 tbl2 : List (PyStr × PyStr)) (T : ObjTable)
    (hnd : (T.map Prod.fst).Nodup) :
    mergeModelObjects (renameObjWith tbl1 T) [renameObjWith tbl2 T]
      = renameObjWith tbl1 T := by
  rw [mergeModelObjects, List.foldl_cons, List.foldl_nil]
  apply mergeFold_id
  · rw [renameObjWith_keys]
    exact hnd
  · intro p hp
    rw [renameObjWith] at hp
    obtain ⟨r, hr, rfl⟩ := List.mem_map.mp hp
    refine ⟨{ r.2 with
        influx := r.2.influx.map (fun q => (nidOf tbl1 q.1, q.2)),
        outflux := r.2.outflux.map (fun q => (nidOf tbl1 q.1, q.2)) }, ?_, ?_, ?_⟩
    · rw [renameObjWith]
      exact dictGet_map_keyfix _ T r.1 r.2 hnd hr
    · intro q hq
      dsimp only at hq
      obtain ⟨q0, hq0, rfl⟩ := List.mem_map.mp hq
      apply pys_contains_of_mem
      dsimp only
      rw [List.map_map]
      exact List.mem_map_of_mem (Prod.snd ∘ fun q => (nidOf tbl1 q.1, q.2)) hq0
    · intro q hq
      dsimp only at hq
      obtain ⟨q0, hq0, rfl⟩ := List.mem_map.mp hq
      apply pys_contains_of_mem
      dsimp only
      rw [List.map_map]
      exact List.mem_map_of_mem (Prod.snd ∘ fun q => (nidOf tbl1 q.1, q.2)) hq0

theorem renameObjWith_flux_sizes (tbl : List (PyStr × PyStr)) (T : ObjTable) :
    (renameObjWith tbl T).map (fun p => (p.1, p.2.influx.length, p.2.outflux.length))
      = T.map (fun p => (p.1, p.2.influx.length, p.2.outflux.length)) := by
  rw [renameObjWith, List.map_map]
  apply List.map_congr_left
  intro p _
  dsimp only [Function.comp]
  rw [List.length_map, List.length_map]

/-- C3.  Merging a specification (and its object table) with an exact
copy of itself: the merge succeeds, the merged specification holds
`2 * |Reactions|` reactions with pairwise-distinct ids, and the merged
object table is exactly the first renamed table — every incoming flux
expression is textually identical to one already recorded, so the
duplicate-contribution check suppresses it and each entity's influx and
outflux maps keep their pre-merge sizes. -/
theorem C3_self_merge_dedup (pfx : PyStr) (Sp : Spec) (T : ObjTable)
    (hnd0 : (Sp.Reactions.map Prod.fst).Nodup)
    (hfresh : ∀ k ∈ Sp.Reactions.map Prod.fst, pfx.isPrefixOf k = false)
    (hflux : ∀ p ∈ T, (∀ q ∈ p.2.influx, q.1 ∈ Sp.Reactions.map Prod.fst)
        ∧ (∀ q ∈ p.2.outflux, q.1 ∈ Sp.Reactions.map Prod.fst))
    (hfluxnd : ∀ p ∈ T, (p.2.influx.map Prod.fst).Nodup ∧ (p.2.outflux.map Prod.fst).Nodup)
    (hTnd : (T.map Prod.fst).Nodup) :
    ∃ sp : Spec,
      modelMerge [Sp, Sp] [T, T] pfx true true
        = Except.ok (some sp, some (renameObjWith (newIDTable pfx 1 Sp.Reactions) T))
      ∧ sp.Reactions.length = 2 * Sp.Reactions.length
      ∧ (sp.Reactions.map Prod.fst).Nodup
      ∧ (renameObjWith (newIDTable pfx 1 Sp.Reactions) T).map
          (fun p => (p.1, p.2.influx.length, p.2.outflux.length))
        = T.map (fun p => (p.1, p.2.influx.length, p.2.outflux.length)) := by
  have hz : [Sp, Sp].zip [T, T] = [(Sp, T), (Sp, T)] := rfl
  have hpairs : ∀ pr ∈ [Sp, Sp].zip [T, T],
      (pr.1.Reactions.map Prod.fst).Nodup
      ∧ (∀ k ∈ pr.1.Reactions.map Prod.fst, pfx.isPrefixOf k = false)
      ∧ (∀ p ∈ pr.2, (∀ q ∈ p.2.influx, q.1 ∈ pr.1.Reactions.map Prod.fst)
          ∧ (∀ q ∈ p.2.outflux, q.1 ∈ pr.1.Reactions.map Prod.fst))
      ∧ (∀ p ∈ pr.2, (p.2.influx.map Prod.fst).Nodup
          ∧ (p.2.outflux.map Prod.fst).Nodup) := by
    intro pr hpr
    rw [hz] at hpr
    have hpr' : pr = (Sp, T) := by
      rcases List.mem_cons.mp hpr with h | h
      · exact h
      · rcases List.mem_cons.mp h with h2 | h2
        · exact h2
        · exact absurd h2 (List.not_mem_nil _)
    rw [hpr']
    exact ⟨hnd0, hfresh, hflux, hfluxnd⟩
  have haux := renameReactionsAux_ok pfx [Sp, Sp] [T, T] 1 rfl hpairs
  have hren : renameReactions [Sp, Sp] [T, T] pfx true true
      = Except.ok
        ([renameSpecWith (newIDTable pfx 1 Sp.Reactions) Sp,
          renameSpecWith (newIDTable pfx (1 + Sp.Reactions.length) Sp.Reactions) Sp],
         [renameObjWith (newIDTable pfx 1 Sp.Reactions) T,
          renameObjWith (newIDTable pfx (1 + Sp.Reactions.length) Sp.Reactions) T]) := by
    rw [renameReactions, haux]
    rfl
  have hk1 := renameSpecWith_keys pfx 1 Sp hnd0
  have hk2 := renameSpecWith_keys pfx (1 + Sp.Reactions.length) Sp hnd0
  have hnds : ((renameSpecWith (newIDTable pfx 1 Sp.Reactions) Sp).Reactions.map Prod.fst
      ++ ([renameSpecWith (newIDTable pfx (1 + Sp.Reactions.length) Sp.Reactions) Sp].map
          (fun s => s.Reactions.map Prod.fst)).flatten).Nodup := by
    rw [List.map_cons, List.map_nil, List.flatten_cons, List.flatten_nil, List.append_nil]
    rw [hk1, hk2, ← newIDs_append pfx _ _ 1]
    exact newIDs_nodup pfx _ 1
  have hkeys := mergeSpec_reactions_keys
    [renameSpecWith (newIDTable pfx (1 + Sp.Reactions.length) Sp.Reactions) Sp]
    (renameSpecWith (newIDTable pfx 1 Sp.Reactions) Sp) hnds
  rw [List.map_cons, List.map_nil, List.flatten_cons, List.flatten_nil,
    List.append_nil, hk1, hk2, ← newIDs_append pfx _ _ 1] at hkeys
  refine ⟨mergeSpecification (renameSpecWith (newIDTable pfx 1 Sp.Reactions) Sp)
    [renameSpecWith (newIDTable pfx (1 + Sp.Reactions.length) Sp.Reactions) Sp],
    ?_, ?_, ?_, renameObjWith_flux_sizes _ T⟩
  · rw [modelMerge, hren, exceptOkBind]
    dsimp only
    rw [mergeRenamed_id _ _ T hTnd]
    rfl
  · have hlen := congrArg List.length hkeys
    rw [List.length_map, newIDs_length] at hlen
    omega
  · rw [hkeys]
    exact newIDs_nodup pfx _ 1

theorem C3_self_merge_dedup_witness :
    ∃ sp : Spec,
      modelMerge [specC3, specC3] [obC3, obC3] (S "exp") true true
        = Except.ok (some sp,
            some (renameObjWith (newIDTable (S "exp") 1 specC3.Reactions) obC3))
      ∧ sp.Reactions.length = 2 * specC3.Reactions.length
      ∧ (sp.Reactions.map Prod.fst).Nodup
      ∧ (renameObjWith (newIDTable (S "exp") 1 specC3.Reactions) obC3).map
          (fun p => (p.1, p.2.influx.length, p.2.outflux.length))
        = obC3.map (fun p => (p.1, p.2.influx.length, p.2.outflux.length)) :=
  C3_self_merge_dedup (S "exp") specC3 obC3 (by decide) (by decide) (by decide)
    (by decide) (by decide)
